import Mathlib

/-!
# VROOM `cvrp_reverse_two_opt` local-search operator

A shallow embedding of `src/problems/cvrp/local_search/reverse_2_opt.cpp`
and the properties its specification states about it.

Conventions of the embedding

* `index_t` ranks, vehicle ranks and job ranks are natural numbers; costs
  (`cost_t`, unsigned) are natural numbers and the gain (`gain_t`, signed) is
  an integer.
* A `std::vector` is a `List`.  Every read of a route or of a per-rank cache
  (`v[k]`, `front()`, `back()`) and every iterator range is fallible: the
  operations live in `Option`, `none` standing for the undefined behaviour of
  an out-of-range access.
* The problem input (`_jobs`, `_vehicles`, the matrix) and the tables of the
  solution state indexed by vehicle are total functions of the rank.
-/

namespace Vroom

/-! ## Problem data -/

/-- Modelled from the spec: the declaration of a job is not in the sources.
A job has the index of its location in the cost matrix (`index()`), an amount
(a nonnegative resource quantity, taken scalar) and the set of skills it
requires. -/
structure job_t where
  index : Nat
  amount : Nat
  skills : List Nat

/-- Modelled from the spec: the declaration of a vehicle is not in the
sources.  A vehicle has an optional start and an optional end location (their
indices in the cost matrix), a capacity of the same shape as an amount and the
set of skills it possesses. -/
structure vehicle_t where
  start : Option Nat
  end_ : Option Nat
  capacity : Nat
  skills : List Nat

/-- Modelled from the spec: member `has_start()`, the vehicle has a fixed
start location. -/
def vehicle_t.has_start (v : vehicle_t) : Bool := v.start.isSome

/-- Modelled from the spec: member `has_end()`, the vehicle has a fixed end
location. -/
def vehicle_t.has_end (v : vehicle_t) : Bool := v.end_.isSome

/-- Modelled from the spec: the declaration of the problem input is not in
the sources.  The operator reads `_jobs`, `_vehicles` and the cost matrix
returned by `get_matrix()`, a directed table that need not be symmetric. -/
structure input where
  _jobs : Nat → job_t
  _vehicles : Nat → vehicle_t
  get_matrix : Nat → Nat → Nat

/-- Modelled from the spec: the declaration of the solution state is not in
the sources.  The operator reads, per vehicle, the four per-rank caches and,
per pair of vehicles, the two skill ranks; what the entries hold is a
hypothesis of each statement that needs it. -/
structure solution_state where
  fwd_costs : Nat → List Nat
  bwd_costs : Nat → List Nat
  fwd_amounts : Nat → List Nat
  bwd_amounts : Nat → List Nat
  fwd_skill_rank : Nat → Nat → Nat
  bwd_skill_rank : Nat → Nat → Nat

/-- Modelled from the spec: the header of the operator is not in the sources.
The object has the members the methods use: the input, the solution state,
the two anchors (route, vehicle, rank), the stored gain and the gain-computed
flag.  The two routes are references in the source; here the object carries
their current content. -/
structure cvrp_reverse_two_opt where
  _input : input
  _sol_state : solution_state
  s_route : List Nat
  s_vehicle : Nat
  s_rank : Nat
  t_route : List Nat
  t_vehicle : Nat
  t_rank : Nat
  stored_gain : Int
  gain_computed : Bool

/-! ## `std::vector` operations used by `apply` -/

/-- Iterator arithmetic `it + k` inside a container of `size` elements. -/
def it_add (size it k : Nat) : Option Nat :=
  if it + k ≤ size then some (it + k) else none

/-- Iterator arithmetic `it - k`. -/
def it_sub (it k : Nat) : Option Nat :=
  if k ≤ it then some (it - k) else none

/-- The elements of the forward range `[first, last)` of `v`. -/
def range_of (v : List Nat) (first last : Nat) : Option (List Nat) :=
  if first ≤ last ∧ last ≤ v.length then some ((v.drop first).take (last - first))
  else none

/-- The elements of the reverse range `[rbegin() + first, rbegin() + last)`
of `v`: a reverse iterator at offset `k` designates `v[size - 1 - k]`. -/
def rrange_of (v : List Nat) (first last : Nat) : Option (List Nat) :=
  range_of v.reverse first last

/-- Call `v.insert(v.begin() + pos, first, last)` with the inserted elements
`xs`. -/
def vec_insert (v : List Nat) (pos : Nat) (xs : List Nat) : Option (List Nat) :=
  if pos ≤ v.length then some (v.take pos ++ xs ++ v.drop pos) else none

/-- Call `v.erase(v.begin() + first, v.begin() + last)`. -/
def vec_erase (v : List Nat) (first last : Nat) : Option (List Nat) :=
  if first ≤ last ∧ last ≤ v.length then some (v.take first ++ v.drop last)
  else none

/-! ## The operator -/

/-- Modelled from the spec: the constructor of the base class `ls_operator`
is not in the sources; it stores its arguments in the members of the move
and marks the gain as not computed.  The source leaves `stored_gain`
without a value until `compute_gain` runs; it is `0` here. -/
def ls_operator (inp : input) (sol_state : solution_state)
    (s_route : List Nat) (s_vehicle s_rank : Nat)
    (t_route : List Nat) (t_vehicle t_rank : Nat) : cvrp_reverse_two_opt :=
  { _input := inp, _sol_state := sol_state,
    s_route := s_route, s_vehicle := s_vehicle, s_rank := s_rank,
    t_route := t_route, t_vehicle := t_vehicle, t_rank := t_rank,
    stored_gain := 0, gain_computed := false }

/-- A failed `assert(cond)`: the construction aborts with the text of the
condition. -/
def assert (cond : Bool) (text : String) : Except String Unit :=
  if cond then .ok () else .error text

/-- Constructor `cvrp_reverse_two_opt::cvrp_reverse_two_opt`: the base
constructor followed by the five assertions.  (Inside its own namespace the
name of the structure cannot be used again, hence `ctor`.) -/
def cvrp_reverse_two_opt.ctor (inp : input)
    (sol_state : solution_state) (s_route : List Nat) (s_vehicle s_rank : Nat)
    (t_route : List Nat) (t_vehicle t_rank : Nat) :
    Except String cvrp_reverse_two_opt := do
  let op := ls_operator inp sol_state s_route s_vehicle s_rank t_route t_vehicle t_rank
  assert (s_vehicle != t_vehicle) "s_vehicle != t_vehicle"
  assert (decide (s_route.length ≥ 1)) "s_route.size() >= 1"
  assert (decide (t_route.length ≥ 1)) "t_route.size() >= 1"
  assert (decide (s_rank < s_route.length)) "s_rank < s_route.size()"
  assert (decide (t_rank < t_route.length)) "t_rank < t_route.size()"
  pure op

/-- Lines 52-57 of `compute_gain`: the new source -> target edge and the cost
of reversing the target route portion. -/
def gain_reverse_target (op : cvrp_reverse_two_opt) (s_index t_index : Nat)
    (stored_gain : Int) : Option Int := do
  let m := op._input.get_matrix
  -- Add new source -> target edge.
  let stored_gain := stored_gain - m s_index t_index
  -- Cost of reversing target route portion.
  let stored_gain := stored_gain + (← (op._sol_state.fwd_costs op.t_vehicle)[op.t_rank]?)
  let stored_gain := stored_gain - (← (op._sol_state.bwd_costs op.t_vehicle)[op.t_rank]?)
  pure stored_gain

/-- Lines 59-63 of `compute_gain`: `if (!last_in_target)`, spare the next
edge in the target route. -/
def gain_spare_target_edge (op : cvrp_reverse_two_opt) (t_index : Nat)
    (last_in_target : Bool) (stored_gain : Int) : Option Int := do
  let m := op._input.get_matrix
  if !last_in_target then
    -- Spare next edge in target route.
    let next_index := (op._input._jobs (← op.t_route[op.t_rank + 1]?)).index
    pure (stored_gain + m t_index next_index)
  else
    pure stored_gain

/-- Lines 79-90 of `compute_gain`: the edge that leaves the moved part of the
source route in the target route. -/
def gain_source_junction (op : cvrp_reverse_two_opt) (t_index next_s_index : Nat)
    (last_in_target : Bool) (stored_gain : Int) : Option Int := do
  let m := op._input.get_matrix
  let v_target := op._input._vehicles op.t_vehicle
  if last_in_target then
    if v_target.has_end then
      -- Handle target route new end.
      let end_t ← v_target.end_
      let stored_gain := stored_gain + m t_index end_t
      pure (stored_gain - m next_s_index end_t)
    else
      pure stored_gain
  else
    -- Add new target -> source edge.
    let next_t_index := (op._input._jobs (← op.t_route[op.t_rank + 1]?)).index
    pure (stored_gain - m next_s_index next_t_index)

/-- Lines 65-91 of `compute_gain`: `if (!last_in_source)`, part of the source
route is moved to the target route. -/
def gain_move_source (op : cvrp_reverse_two_opt) (s_index t_index : Nat)
    (last_in_source last_in_target : Bool) (stored_gain : Int) : Option Int := do
  let m := op._input.get_matrix
  if !last_in_source then
    -- Spare next edge in source route.
    let next_index := (op._input._jobs (← op.s_route[op.s_rank + 1]?)).index
    let stored_gain := stored_gain + m s_index next_index
    -- Part of source route is moved to target route.
    let next_s_index := (op._input._jobs (← op.s_route[op.s_rank + 1]?)).index
    -- Cost or reverting source route portion.
    let stored_gain := stored_gain + (← (op._sol_state.fwd_costs op.s_vehicle).getLast?)
    let stored_gain := stored_gain - (← (op._sol_state.fwd_costs op.s_vehicle)[op.s_rank + 1]?)
    let stored_gain := stored_gain - (← (op._sol_state.bwd_costs op.s_vehicle).getLast?)
    let stored_gain := stored_gain + (← (op._sol_state.bwd_costs op.s_vehicle)[op.s_rank + 1]?)
    gain_source_junction op t_index next_s_index last_in_target stored_gain
  else
    pure stored_gain

/-- Lines 93-98 of `compute_gain`: `if (v_source.has_end())`, the cost to the
source end changes because the last job changed. -/
def gain_source_end (op : cvrp_reverse_two_opt) (last_s first_t : Nat)
    (stored_gain : Int) : Option Int := do
  let m := op._input.get_matrix
  let v_source := op._input._vehicles op.s_vehicle
  if v_source.has_end then
    -- Update cost to source end because last job changed.
    let end_s ← v_source.end_
    let stored_gain := stored_gain + m last_s end_s
    pure (stored_gain - m first_t end_s)
  else
    pure stored_gain

/-- Lines 104-120 of `compute_gain`: the new first edge of the target route,
inside `if (v_target.has_start())`. -/
def gain_target_first (op : cvrp_reverse_two_opt) (t_index last_s start_t : Nat)
    (last_in_source last_in_target : Bool) (stored_gain : Int) : Option Int := do
  let m := op._input.get_matrix
  let v_target := op._input._vehicles op.t_vehicle
  if !last_in_source then
    pure (stored_gain - m start_t last_s)
  else
    -- No job from source route actually swapped to target route.
    if !last_in_target then
      -- Going straight from start to next job in target route.
      let next_index := (op._input._jobs (← op.t_route[op.t_rank + 1]?)).index
      pure (stored_gain - m start_t next_index)
    else
      -- Emptying the whole target route here, so also gaining cost
      -- to end if it exists.
      if v_target.has_end then
        let end_t ← v_target.end_
        pure (stored_gain + m t_index end_t)
      else
        pure stored_gain

/-- Lines 100-121 of `compute_gain`: `if (v_target.has_start())`, spare the
cost from the target start because the first job changed. -/
def gain_target_start (op : cvrp_reverse_two_opt) (t_index last_s first_t : Nat)
    (last_in_source last_in_target : Bool) (stored_gain : Int) : Option Int := do
  let m := op._input.get_matrix
  let v_target := op._input._vehicles op.t_vehicle
  if v_target.has_start then
    -- Spare cost from target start because first job changed.
    let start_t ← v_target.start
    let stored_gain := stored_gain + m start_t first_t
    gain_target_first op t_index last_s start_t last_in_source last_in_target stored_gain
  else
    pure stored_gain

/-- Method `cvrp_reverse_two_opt::compute_gain`: the local variables, then the
blocks of the body in the order of the source, each one updating
`stored_gain`, then the flag. -/
def cvrp_reverse_two_opt.compute_gain (op : cvrp_reverse_two_opt) :
    Option cvrp_reverse_two_opt := do
  let s_index := (op._input._jobs (← op.s_route[op.s_rank]?)).index
  let t_index := (op._input._jobs (← op.t_route[op.t_rank]?)).index
  let last_s := (op._input._jobs (← op.s_route.getLast?)).index
  let first_t := (op._input._jobs (← op.t_route.head?)).index
  let stored_gain : Int := 0
  let last_in_source := (op.s_rank == op.s_route.length - 1)
  let last_in_target := (op.t_rank == op.t_route.length - 1)
  let stored_gain ← gain_reverse_target op s_index t_index stored_gain
  let stored_gain ← gain_spare_target_edge op t_index last_in_target stored_gain
  let stored_gain ← gain_move_source op s_index t_index last_in_source last_in_target stored_gain
  let stored_gain ← gain_source_end op last_s first_t stored_gain
  let stored_gain ← gain_target_start op t_index last_s first_t last_in_source last_in_target stored_gain
  pure { op with stored_gain := stored_gain, gain_computed := true }

/-- Method `cvrp_reverse_two_opt::is_valid`.  The method is not `const`: it
returns its result together with the object it leaves.  Each `&=` evaluates
its right-hand side, so the four cache entries are always read. -/
def cvrp_reverse_two_opt.is_valid (op : cvrp_reverse_two_opt) :
    Option (Bool × cvrp_reverse_two_opt) := do
  let valid := decide (op._sol_state.bwd_skill_rank op.s_vehicle op.t_vehicle ≤ op.s_rank + 1)
  let valid := valid && decide (op.t_rank < op._sol_state.fwd_skill_rank op.t_vehicle op.s_vehicle)
  let valid := valid &&
    decide ((← (op._sol_state.fwd_amounts op.s_vehicle)[op.s_rank]?) +
              (← (op._sol_state.fwd_amounts op.t_vehicle)[op.t_rank]?) ≤
            (op._input._vehicles op.s_vehicle).capacity)
  let valid := valid &&
    decide ((← (op._sol_state.bwd_amounts op.t_vehicle)[op.t_rank]?) +
              (← (op._sol_state.bwd_amounts op.s_vehicle)[op.s_rank]?) ≤
            (op._input._vehicles op.t_vehicle).capacity)
  pure (valid, op)

/-- First statement of `apply`:
`t_route.insert(t_route.begin(), s_route.rbegin(), s_route.rbegin() + nb_source)`. -/
def apply_insert_target (s_route t_route : List Nat) (nb_source : Nat) :
    Option (List Nat) := do
  let s_last ← it_add s_route.length 0 nb_source
  let moved ← rrange_of s_route 0 s_last
  vec_insert t_route 0 moved

/-- Second statement of `apply`:
`s_route.erase(s_route.begin() + s_rank + 1, s_route.end())`. -/
def apply_erase_source (s_route : List Nat) (s_rank : Nat) : Option (List Nat) := do
  let first ← it_add s_route.length 0 s_rank
  let first ← it_add s_route.length first 1
  vec_erase s_route first s_route.length

/-- Third statement of `apply`:
`s_route.insert(s_route.end(), t_route.rend() - t_rank - nb_source - 1,
t_route.rend() - nb_source)`.  Offsets of reverse iterators are counted from
`rbegin()`, so `rend()` is the size of the container. -/
def apply_insert_source (s_route t_route : List Nat) (t_rank nb_source : Nat) :
    Option (List Nat) := do
  let first ← it_sub t_route.length t_rank
  let first ← it_sub first nb_source
  let first ← it_sub first 1
  let last ← it_sub t_route.length nb_source
  let moved ← rrange_of t_route first last
  vec_insert s_route s_route.length moved

/-- Fourth statement of `apply`:
`t_route.erase(t_route.begin() + nb_source, t_route.begin() + nb_source + t_rank + 1)`. -/
def apply_erase_target (t_route : List Nat) (t_rank nb_source : Nat) :
    Option (List Nat) := do
  let first ← it_add t_route.length 0 nb_source
  let last ← it_add t_route.length first t_rank
  let last ← it_add t_route.length last 1
  vec_erase t_route first last

/-- Method `cvrp_reverse_two_opt::apply`, statement by statement.  The
subtraction computing `nb_source` is truncated: when `s_rank` is not a rank
of `s_route` the erased range of the second statement is outside the
container and the call fails whatever the value of `nb_source`. -/
def cvrp_reverse_two_opt.apply (op : cvrp_reverse_two_opt) :
    Option cvrp_reverse_two_opt := do
  let nb_source := op.s_route.length - 1 - op.s_rank
  let t_route ← apply_insert_target op.s_route op.t_route nb_source
  let s_route ← apply_erase_source op.s_route op.s_rank
  let s_route ← apply_insert_source s_route t_route op.t_rank nb_source
  let t_route ← apply_erase_target t_route op.t_rank nb_source
  pure { op with s_route := s_route, t_route := t_route }

/-! ## The move as the specification defines it -/

/-- The inclusive slice `r[a..b]` of a route, in the notation of the
specification. -/
def slice (r : List Nat) (a b : Nat) : List Nat := (r.drop a).take (b + 1 - a)

/-- The slice `r[a..end]`, empty when `a` is past the last rank. -/
def slice_from (r : List Nat) (a : Nat) : List Nat := r.drop a

/-- New source route of the move definition:
`Rs' = Rs[0..i] ++ reverse(Rt[0..j])`. -/
def new_source (Rs Rt : List Nat) (i j : Nat) : List Nat :=
  slice Rs 0 i ++ (slice Rt 0 j).reverse

/-- New target route of the move definition:
`Rt' = reverse(Rs[i+1..end]) ++ Rt[j+1..end]`. -/
def new_target (Rs Rt : List Nat) (i j : Nat) : List Nat :=
  (slice_from Rs (i + 1)).reverse ++ slice_from Rt (j + 1)

/-! ## Brute-force costs and the cost caches -/

/-- Cost of the edge from job `a` to job `b`:
`m[_jobs[a].index()][_jobs[b].index()]`. -/
def edge_cost (inp : input) (a b : Nat) : Nat :=
  inp.get_matrix (inp._jobs a).index (inp._jobs b).index

/-- Sum of the costs of the consecutive edges of a sequence of jobs, by
traversal. -/
def path_cost (inp : input) : List Nat → Nat
  | [] => 0
  | [_] => 0
  | a :: b :: rest => edge_cost inp a b + path_cost inp (b :: rest)

/-- Cost of the edge from the start depot of `v` to job `a`, `0` when `v`
has no start. -/
def start_cost (inp : input) (v : vehicle_t) (a : Nat) : Nat :=
  match v.start with
  | some s => inp.get_matrix s (inp._jobs a).index
  | none => 0

/-- Cost of the edge from job `a` to the end depot of `v`, `0` when `v` has
no end. -/
def end_cost (inp : input) (v : vehicle_t) (a : Nat) : Nat :=
  match v.end_ with
  | some e => inp.get_matrix (inp._jobs a).index e
  | none => 0

/-- Brute-force total cost of a route of vehicle `v`: consecutive edges plus
the depot edges when present; an empty route has no edge and costs `0`. -/
def total_cost (inp : input) (v : vehicle_t) (route : List Nat) : Nat :=
  match route.head?, route.getLast? with
  | some first, some last =>
      start_cost inp v first + path_cost inp route + end_cost inp v last
  | _, _ => 0

/-- Modelled from the spec: `fwd_cost[v][r]` is the travel cost of visiting
`route[0..r]` in stored order, depot edges excluded; the code filling the
solution state is not in the sources. -/
def fwd_costs_of (inp : input) (route : List Nat) : List Nat :=
  (List.range route.length).map (fun r => path_cost inp (slice route 0 r))

/-- Modelled from the spec: `bwd_cost[v][r]` is the travel cost of visiting
the same positions `route[0..r]` in reverse order; the code filling the
solution state is not in the sources. -/
def bwd_costs_of (inp : input) (route : List Nat) : List Nat :=
  (List.range route.length).map (fun r => path_cost inp (slice route 0 r).reverse)

/-- Brute-force gain of the move: the total cost of the two old routes minus
the total cost of the two new routes. -/
def brute_force_gain (inp : input) (S T : Nat) (Rs Rt : List Nat) (i j : Nat) : Int :=
  (total_cost inp (inp._vehicles S) Rs : Int) + total_cost inp (inp._vehicles T) Rt
    - total_cost inp (inp._vehicles S) (new_source Rs Rt i j)
    - total_cost inp (inp._vehicles T) (new_target Rs Rt i j)

/-- Cost of the edge that links two consecutive pieces of a route: from the
last job of the first piece to the first job of the second, `0` when one of
the two pieces is empty. -/
def link_cost (inp : input) : Option Nat → Option Nat → Nat
  | some a, some b => edge_cost inp a b
  | _, _ => 0

/-- Cost of the edge from the start depot of `v` to the first job of a
piece of route, `0` for an empty piece. -/
def start_link (inp : input) (v : vehicle_t) : Option Nat → Nat
  | some a => start_cost inp v a
  | none => 0

/-- Cost of the edge from the last job of a piece of route to the end depot
of `v`, `0` for an empty piece. -/
def end_link (inp : input) (v : vehicle_t) : Option Nat → Nat
  | some a => end_cost inp v a
  | none => 0

/-- The edge the gain computation leaves out: the edge from `job(j, T)` to the
end depot of `T` when the move empties the target route (`i` and `j` are both
last ranks) and `T` has no start depot. -/
def missed_end_edge (op : cvrp_reverse_two_opt) : Nat :=
  if op.s_rank = op.s_route.length - 1 ∧ op.t_rank = op.t_route.length - 1 ∧
      (op._input._vehicles op.t_vehicle).start = none
  then end_cost op._input (op._input._vehicles op.t_vehicle) (op.t_route.getD op.t_rank 0)
  else 0

/-! ## The gain formula of the specification -/

/-- Location index of the job at rank `r` of a route, `job(r, V)` in the
specification. -/
def job_at (inp : input) (route : List Nat) (r : Nat) : Nat :=
  (inp._jobs (route.getD r 0)).index

/-- Entry `r` of a cost cache, as an integer. -/
def cache_at (cache : List Nat) (r : Nat) : Int := (cache.getD r 0 : Nat)

/-- The six additive steps of the gain computation of the specification,
each under its guard, in the order of the specification. -/
def six_step_gain (op : cvrp_reverse_two_opt) : Int :=
  let inp := op._input
  let cost : Nat → Nat → Int := fun a b => (inp.get_matrix a b : Nat)
  let Rs := op.s_route
  let Rt := op.t_route
  let i := op.s_rank
  let j := op.t_rank
  let last_S := Rs.length - 1
  let last_T := Rt.length - 1
  let fwd_S := cache_at (op._sol_state.fwd_costs op.s_vehicle)
  let bwd_S := cache_at (op._sol_state.bwd_costs op.s_vehicle)
  let fwd_T := cache_at (op._sol_state.fwd_costs op.t_vehicle)
  let bwd_T := cache_at (op._sol_state.bwd_costs op.t_vehicle)
  let end_S := (inp._vehicles op.s_vehicle).end_
  let start_T := (inp._vehicles op.t_vehicle).start
  let end_T := (inp._vehicles op.t_vehicle).end_
  let step1 : Int := - cost (job_at inp Rs i) (job_at inp Rt j)
  let step2 : Int := fwd_T j - bwd_T j
  let step3 : Int :=
    if j ≠ last_T then cost (job_at inp Rt j) (job_at inp Rt (j + 1)) else 0
  let step4 : Int :=
    if i ≠ last_S then
      cost (job_at inp Rs i) (job_at inp Rs (i + 1))
        + ((fwd_S last_S - fwd_S (i + 1)) - (bwd_S last_S - bwd_S (i + 1)))
        + (if j = last_T then
            match end_T with
            | some e => - cost (job_at inp Rs (i + 1)) e + cost (job_at inp Rt j) e
            | none => 0
          else - cost (job_at inp Rs (i + 1)) (job_at inp Rt (j + 1)))
    else 0
  let step5 : Int :=
    match end_S with
    | some e => cost (job_at inp Rs last_S) e - cost (job_at inp Rt 0) e
    | none => 0
  let step6 : Int :=
    match start_T with
    | some s =>
        cost s (job_at inp Rt 0)
          + (if i ≠ last_S then - cost s (job_at inp Rs last_S)
             else if j ≠ last_T then - cost s (job_at inp Rt (j + 1))
             else match end_T with
               | some e => cost (job_at inp Rt j) e
               | none => 0)
    | none => 0
  step1 + step2 + step3 + step4 + step5 + step6

/-! ## Brute-force demands and skills, and their caches -/

/-- Brute-force total demand of a sequence of jobs. -/
def demand (inp : input) (route : List Nat) : Nat :=
  (route.map (fun job => (inp._jobs job).amount)).sum

/-- Modelled from the spec: `fwd_amount[v][r]` is the cumulative demand over
the prefix `route[0..r]`; the code filling the solution state is not in the
sources. -/
def fwd_amounts_of (inp : input) (route : List Nat) : List Nat :=
  (List.range route.length).map (fun r => demand inp (slice route 0 r))

/-- Modelled from the spec: `bwd_amount[v][r]` is the cumulative demand over
the suffix `route[r..end]`, so that `bwd_amount[v][0]` is the total demand of
the route; the code filling the solution state is not in the sources. -/
def bwd_amounts_of (inp : input) (route : List Nat) : List Nat :=
  (List.range route.length).map (fun r => demand inp (slice_from route r))

/-- Modelled from the spec: a vehicle may serve a job only if the skill set
of the vehicle is a superset of the skills the job requires; the function
`vehicle_ok_with_job` of the input is not in the sources. -/
def vehicle_ok_with_job (inp : input) (v job : Nat) : Bool :=
  (inp._jobs job).skills.all (fun s => (inp._vehicles v).skills.contains s)

/-- Modelled from the spec: the furthest rank such that every job of `route`,
taken from the front, is compatible with the skill set of vehicle `v`, as the
number of jobs at the front of `route` that `v` can serve; the code filling
the skill ranks is not in the sources. -/
def skill_rank_from_front (inp : input) (v : Nat) (route : List Nat) : Nat :=
  (route.takeWhile (vehicle_ok_with_job inp v)).length

/-- Modelled from the spec: the furthest rank such that every job of `route`,
taken from the back, is compatible with the skill set of vehicle `v`, as the
rank from which every job to the back of `route` can be served by `v`; the
code filling the skill ranks is not in the sources. -/
def skill_rank_from_back (inp : input) (v : Nat) (route : List Nat) : Nat :=
  route.length - (route.reverse.takeWhile (vehicle_ok_with_job inp v)).length

/-! ## Well-formed moves and exact caches -/

/-- The reads of `compute_gain` are in range for a move with in-range ranks
and cost caches that have one entry per rank. -/
structure gain_ready (op : cvrp_reverse_two_opt) : Prop where
  s_rank_lt : op.s_rank < op.s_route.length
  t_rank_lt : op.t_rank < op.t_route.length
  fwd_s : (op._sol_state.fwd_costs op.s_vehicle).length = op.s_route.length
  bwd_s : (op._sol_state.bwd_costs op.s_vehicle).length = op.s_route.length
  fwd_t : (op._sol_state.fwd_costs op.t_vehicle).length = op.t_route.length
  bwd_t : (op._sol_state.bwd_costs op.t_vehicle).length = op.t_route.length

/-- The reads of `is_valid` are in range: the amount caches have one entry
per rank of the route of their vehicle. -/
structure amounts_ready (op : cvrp_reverse_two_opt) : Prop where
  fwd_s : (op._sol_state.fwd_amounts op.s_vehicle).length = op.s_route.length
  bwd_s : (op._sol_state.bwd_amounts op.s_vehicle).length = op.s_route.length
  fwd_t : (op._sol_state.fwd_amounts op.t_vehicle).length = op.t_route.length
  bwd_t : (op._sol_state.bwd_amounts op.t_vehicle).length = op.t_route.length

/-- The cost caches of the two vehicles of the move hold the values the
specification defines for the two routes. -/
structure costs_exact (op : cvrp_reverse_two_opt) : Prop where
  fwd_s : op._sol_state.fwd_costs op.s_vehicle = fwd_costs_of op._input op.s_route
  bwd_s : op._sol_state.bwd_costs op.s_vehicle = bwd_costs_of op._input op.s_route
  fwd_t : op._sol_state.fwd_costs op.t_vehicle = fwd_costs_of op._input op.t_route
  bwd_t : op._sol_state.bwd_costs op.t_vehicle = bwd_costs_of op._input op.t_route

/-- The amount caches of the two vehicles of the move hold the values the
specification defines for the two routes. -/
structure amounts_exact (op : cvrp_reverse_two_opt) : Prop where
  fwd_s : op._sol_state.fwd_amounts op.s_vehicle = fwd_amounts_of op._input op.s_route
  bwd_s : op._sol_state.bwd_amounts op.s_vehicle = bwd_amounts_of op._input op.s_route
  fwd_t : op._sol_state.fwd_amounts op.t_vehicle = fwd_amounts_of op._input op.t_route
  bwd_t : op._sol_state.bwd_amounts op.t_vehicle = bwd_amounts_of op._input op.t_route

/-- The gain stored by `compute_gain`, when it returns. -/
def computed_gain (op : cvrp_reverse_two_opt) : Option Int :=
  op.compute_gain.map (fun o => o.stored_gain)

/-- The routes `(s_route, t_route)` left by `apply`, when it returns. -/
def applied_routes (op : cvrp_reverse_two_opt) : Option (List Nat × List Nat) :=
  op.apply.map (fun o => (o.s_route, o.t_route))

/-! ## Concrete moves -/

/-- An input with jobs `k` located at index `k`, of demand `1` and without
required skills, a cost matrix that is not symmetric, vehicle `0` without
depots and every other vehicle with an end depot at index `9` only. -/
def demo_input : input :=
  { _jobs := fun k => { index := k, amount := 1, skills := [] },
    _vehicles := fun v =>
      if v = 0 then { start := none, end_ := none, capacity := 10, skills := [] }
      else { start := none, end_ := some 9, capacity := 10, skills := [] },
    get_matrix := fun a b => 10 * a + b }

/-- The solution state of `inp` for route `Rs` of vehicle `0` and route `Rt`
of the other vehicles, with the caches the specification defines and the
given skill ranks. -/
def demo_state (inp : input) (Rs Rt : List Nat) (fwd_skill bwd_skill : Nat) :
    solution_state :=
  { fwd_costs := fun v => if v = 0 then fwd_costs_of inp Rs else fwd_costs_of inp Rt,
    bwd_costs := fun v => if v = 0 then bwd_costs_of inp Rs else bwd_costs_of inp Rt,
    fwd_amounts := fun v => if v = 0 then fwd_amounts_of inp Rs else fwd_amounts_of inp Rt,
    bwd_amounts := fun v => if v = 0 then bwd_amounts_of inp Rs else bwd_amounts_of inp Rt,
    fwd_skill_rank := fun _ _ => fwd_skill,
    bwd_skill_rank := fun _ _ => bwd_skill }

/-- The move on `demo_input` with source vehicle `0`, route `Rs`, rank `i`
and target vehicle `1`, route `Rt`, rank `j`; the skill ranks let every job
through. -/
def demo_move (Rs Rt : List Nat) (i j : Nat) : cvrp_reverse_two_opt :=
  ls_operator demo_input (demo_state demo_input Rs Rt Rt.length 0) Rs 0 i Rt 1 j

/-- The same input as `demo_input` with no depot on any vehicle. -/
def open_input : input :=
  { demo_input with
    _vehicles := fun _ => { start := none, end_ := none, capacity := 10, skills := [] } }

/-- The move of the scenario of the specification: `Rs = [a, b, c]` for
vehicle `S`, `Rt = [d, e]` for vehicle `T`, cut after `a` and after `d`. -/
def scenario_move (inp : input) (st : solution_state) (S T a b c d e : Nat) :
    cvrp_reverse_two_opt :=
  ls_operator inp st [a, b, c] S 0 [d, e] T 0

/-- The same input as `demo_input` with capacity `1` for every vehicle but
vehicle `0`, and no depot. -/
def tight_input : input :=
  { demo_input with
    _vehicles := fun v =>
      if v = 0 then { start := none, end_ := none, capacity := 10, skills := [] }
      else { start := none, end_ := none, capacity := 1, skills := [] } }

/-- The move on `tight_input` with source vehicle `0` and target vehicle `1`,
the caches the specification defines and skill ranks that let every job
through. -/
def tight_move (Rs Rt : List Nat) (i j : Nat) : cvrp_reverse_two_opt :=
  ls_operator tight_input (demo_state tight_input Rs Rt Rt.length 0) Rs 0 i Rt 1 j

/-- The result of `is_valid`, when it returns. -/
def validity (op : cvrp_reverse_two_opt) : Option Bool :=
  op.is_valid.map (fun r => r.1)

/-- Entry `r` of an amount cache. -/
def amount_at (cache : List Nat) (r : Nat) : Nat := cache.getD r 0

/-- Demand of the job at rank `r` of a route. -/
def amount_of_rank (inp : input) (route : List Nat) (r : Nat) : Nat :=
  (inp._jobs (route.getD r 0)).amount

/-- The skill ranks read by the move hold what the specification writes for
`skill_rank_prefix[v1][v2]` and `skill_rank_suffix[v1][v2]`: the rank in the
route of `v2` up to which (from the front, resp. from the back) every job is
compatible with the skills of `v1`. -/
structure skills_as_specified (op : cvrp_reverse_two_opt) : Prop where
  bwd : op._sol_state.bwd_skill_rank op.s_vehicle op.t_vehicle
      = skill_rank_from_back op._input op.s_vehicle op.t_route
  fwd : op._sol_state.fwd_skill_rank op.t_vehicle op.s_vehicle
      = skill_rank_from_front op._input op.t_vehicle op.s_route

/-- The skill ranks read by the move with the two roles exchanged:
`fwd_skill_rank[v1][v2]` and `bwd_skill_rank[v1][v2]` are ranks in the route of
`v1`, for the skills of `v2`. -/
structure skills_as_read (op : cvrp_reverse_two_opt) : Prop where
  bwd : op._sol_state.bwd_skill_rank op.s_vehicle op.t_vehicle
      = skill_rank_from_back op._input op.t_vehicle op.s_route
  fwd : op._sol_state.fwd_skill_rank op.t_vehicle op.s_vehicle
      = skill_rank_from_front op._input op.s_vehicle op.t_route

/-- An input where job `4` requires skill `1`, no other job requires a
skill, vehicle `0` has no skill and the other vehicles have skill `1`; unit
demands, capacities `10`, no depot. -/
def skilled_input : input :=
  { _jobs := fun k => { index := k, amount := 1, skills := if k = 4 then [1] else [] },
    _vehicles := fun v =>
      { start := none, end_ := none, capacity := 10, skills := if v = 0 then [] else [1] },
    get_matrix := fun a b => 10 * a + b }

/-- The move on `skilled_input` with source vehicle `0` and target vehicle
`1`, exact cost and amount caches, and the skill ranks of the specification:
entry `[v1][v2]` for the route of `v2` and the skills of `v1`. -/
def literal_skill_move (Rs Rt : List Nat) (i j : Nat) : cvrp_reverse_two_opt :=
  ls_operator skilled_input
    { demo_state skilled_input Rs Rt 0 0 with
      fwd_skill_rank := fun v1 v2 =>
        skill_rank_from_front skilled_input v1 (if v2 = 0 then Rs else Rt),
      bwd_skill_rank := fun v1 v2 =>
        skill_rank_from_back skilled_input v1 (if v2 = 0 then Rs else Rt) }
    Rs 0 i Rt 1 j

/-- The move on `skilled_input` with source vehicle `0` and target vehicle
`1`, exact cost and amount caches, and skill ranks with the roles exchanged:
entry `[v1][v2]` for the route of `v1` and the skills of `v2`. -/
def read_skill_move (Rs Rt : List Nat) (i j : Nat) : cvrp_reverse_two_opt :=
  ls_operator skilled_input
    { demo_state skilled_input Rs Rt 0 0 with
      fwd_skill_rank := fun v1 v2 =>
        skill_rank_from_front skilled_input v2 (if v1 = 0 then Rs else Rt),
      bwd_skill_rank := fun v1 v2 =>
        skill_rank_from_back skilled_input v2 (if v1 = 0 then Rs else Rt) }
    Rs 0 i Rt 1 j

/-- Call `is_valid` `n` times in a row on the object each call leaves; the
results of the calls, first call first, and the object left at the end. -/
def repeat_is_valid : Nat → cvrp_reverse_two_opt → Option (List Bool × cvrp_reverse_two_opt)
  | 0, op => some ([], op)
  | n + 1, op => do
    let (valid, op) ← op.is_valid
    let (rest, op) ← repeat_is_valid n op
    pure (valid :: rest, op)

/-! ## Suffix amounts as `is_valid` reads them -/

/-- Suffix demand sums that leave the rank out: entry `r` is the demand of the
jobs strictly after rank `r`, `route[r+1..end]`, so that the last entry is `0`
and entry `r` is the total demand minus `fwd_amount[v][r]`.  These are the
sums that the second comparison of `is_valid` stands for, the new target route
being `reverse(Rs[i+1..end]) ++ Rt[j+1..end]`. -/
def bwd_amounts_after (inp : input) (route : List Nat) : List Nat :=
  (List.range route.length).map (fun r => demand inp (slice_from route (r + 1)))

/-- The amount caches of the two vehicles of the move hold, at rank `r`, the
demand of `route[0..r]` (`fwd_amounts`) and the demand of `route[r+1..end]`
(`bwd_amounts`). -/
structure amounts_as_read (op : cvrp_reverse_two_opt) : Prop where
  fwd_s : op._sol_state.fwd_amounts op.s_vehicle = fwd_amounts_of op._input op.s_route
  bwd_s : op._sol_state.bwd_amounts op.s_vehicle = bwd_amounts_after op._input op.s_route
  fwd_t : op._sol_state.fwd_amounts op.t_vehicle = fwd_amounts_of op._input op.t_route
  bwd_t : op._sol_state.bwd_amounts op.t_vehicle = bwd_amounts_after op._input op.t_route

/-- The move on `tight_input` with source vehicle `0` and target vehicle `1`,
`fwd_amounts` over `route[0..r]`, `bwd_amounts` over `route[r+1..end]`, and
skill ranks that let every job through. -/
def after_rank_move (Rs Rt : List Nat) (i j : Nat) : cvrp_reverse_two_opt :=
  ls_operator tight_input
    { demo_state tight_input Rs Rt Rt.length 0 with
      bwd_amounts := fun v =>
        if v = 0 then bwd_amounts_after tight_input Rs else bwd_amounts_after tight_input Rt }
    Rs 0 i Rt 1 j

/-! ## Candidates -/

/-- Method `cvrp_reverse_two_opt::addition_candidates`. -/
def cvrp_reverse_two_opt.addition_candidates (op : cvrp_reverse_two_opt) : List Nat :=
  [op.s_vehicle, op.t_vehicle]

/-- Method `cvrp_reverse_two_opt::update_candidates`. -/
def cvrp_reverse_two_opt.update_candidates (op : cvrp_reverse_two_opt) : List Nat :=
  [op.s_vehicle, op.t_vehicle]

/-! ## Command-line arguments (`structures/cl_args.cpp`) -/

/-- The members of `cl_args_t` that its constructor initialises, in the order
of the initialiser list; the header that declares them is not in the sources,
their types are the ones of the initial values. -/
structure cl_args_t where
  osrm_address : String
  geometry : Bool
  osrm_port : String
  use_libosrm : Bool
  nb_threads : Nat
  osrm_profile : String
  exploration_level : Nat

/-- Static member `cl_args_t::max_exploration_level`. -/
def cl_args_t.max_exploration_level : Nat := 5

/-- Default constructor `cl_args_t::cl_args_t`.  (Inside its own namespace the
name of the structure cannot be used again, hence `ctor`.) -/
def cl_args_t.ctor : cl_args_t :=
  { osrm_address := "0.0.0.0",
    geometry := false,
    osrm_port := "5000",
    use_libosrm := false,
    nb_threads := 4,
    osrm_profile := "car",
    exploration_level := 5 }

/-! ## Lemmas on reads -/

theorem getElem?_eq_getD (l : List Nat) (k : Nat) (h : k < l.length) :
    l[k]? = some (l.getD k 0) := by
  simp [List.getD, List.getElem?_eq_getElem h]

theorem getLast?_eq_getD (l : List Nat) (h : 0 < l.length) :
    l.getLast? = some (l.getD (l.length - 1) 0) := by
  rw [List.getLast?_eq_getElem?]
  exact getElem?_eq_getD l _ (by omega)

theorem head?_eq_getD (l : List Nat) (h : 0 < l.length) :
    l.head? = some (l.getD 0 0) := by
  rw [List.head?_eq_getElem?]
  exact getElem?_eq_getD l _ h

theorem range_map_getD (f : Nat → Nat) (n r : Nat) (h : r < n) :
    ((List.range n).map f).getD r 0 = f r := by
  rw [List.getD_eq_getElem _ _ (by simpa using h)]
  simp

/-! ## Lemmas on `compute_gain` -/

theorem gain_reverse_target_eq (op : cvrp_reverse_two_opt) (h : gain_ready op)
    (s_index t_index : Nat) (g : Int) :
    gain_reverse_target op s_index t_index g
      = some (g - (op._input.get_matrix s_index t_index : Nat)
          + cache_at (op._sol_state.fwd_costs op.t_vehicle) op.t_rank
          - cache_at (op._sol_state.bwd_costs op.t_vehicle) op.t_rank) := by
  have h1 := getElem?_eq_getD (op._sol_state.fwd_costs op.t_vehicle) op.t_rank
    (by rw [h.fwd_t]; exact h.t_rank_lt)
  have h2 := getElem?_eq_getD (op._sol_state.bwd_costs op.t_vehicle) op.t_rank
    (by rw [h.bwd_t]; exact h.t_rank_lt)
  simp only [gain_reverse_target, h1, h2, cache_at, Option.bind_eq_bind, Option.some_bind,
    Option.pure_def]

theorem beq_last_true {a b : Nat} (h : a = b) : (a == b) = true := by simp [h]

theorem beq_last_false {a b : Nat} (h : ¬ a = b) : (a == b) = false := by simp [h]

theorem gain_spare_target_edge_eq (op : cvrp_reverse_two_opt) (h : gain_ready op)
    (t_index : Nat) (g : Int) :
    gain_spare_target_edge op t_index (op.t_rank == op.t_route.length - 1) g
      = some (g + (if op.t_rank ≠ op.t_route.length - 1
          then ((op._input.get_matrix t_index
            (job_at op._input op.t_route (op.t_rank + 1)) : Nat) : Int) else 0)) := by
  have hj := h.t_rank_lt
  by_cases hl : op.t_rank = op.t_route.length - 1
  · rw [beq_last_true hl, if_neg (not_not.mpr hl)]
    simp [gain_spare_target_edge]
  · have h1 := getElem?_eq_getD op.t_route (op.t_rank + 1) (by omega)
    rw [beq_last_false hl, if_pos hl]
    simp only [gain_spare_target_edge, h1, job_at, Bool.not_false, if_true,
      Option.bind_eq_bind, Option.some_bind, Option.pure_def]

theorem gain_source_junction_eq (op : cvrp_reverse_two_opt) (h : gain_ready op)
    (t_index next_s_index : Nat) (g : Int) :
    gain_source_junction op t_index next_s_index (op.t_rank == op.t_route.length - 1) g
      = some (g + (if op.t_rank = op.t_route.length - 1 then
          match (op._input._vehicles op.t_vehicle).end_ with
          | some e => - ((op._input.get_matrix next_s_index e : Nat) : Int)
              + ((op._input.get_matrix t_index e : Nat) : Int)
          | none => 0
        else - ((op._input.get_matrix next_s_index
            (job_at op._input op.t_route (op.t_rank + 1)) : Nat) : Int))) := by
  have hj := h.t_rank_lt
  by_cases hl : op.t_rank = op.t_route.length - 1
  · rw [beq_last_true hl, if_pos hl]
    cases he : (op._input._vehicles op.t_vehicle).end_ with
    | none => simp [gain_source_junction, he, vehicle_t.has_end]
    | some e =>
      simp only [gain_source_junction, he, vehicle_t.has_end, Option.isSome_some, if_true,
        Option.bind_eq_bind, Option.some_bind, Option.pure_def, Option.some.injEq]
      ring
  · have h1 := getElem?_eq_getD op.t_route (op.t_rank + 1) (by omega)
    rw [beq_last_false hl, if_neg hl]
    simp only [gain_source_junction, h1, job_at, Bool.false_eq_true, if_false,
      Option.bind_eq_bind, Option.some_bind, Option.pure_def, Option.some.injEq]
    ring

theorem gain_move_source_eq (op : cvrp_reverse_two_opt) (h : gain_ready op)
    (s_index t_index : Nat) (g : Int) :
    gain_move_source op s_index t_index (op.s_rank == op.s_route.length - 1)
        (op.t_rank == op.t_route.length - 1) g
      = some (g + (if op.s_rank ≠ op.s_route.length - 1 then
          ((op._input.get_matrix s_index (job_at op._input op.s_route (op.s_rank + 1)) : Nat) : Int)
          + ((cache_at (op._sol_state.fwd_costs op.s_vehicle) (op.s_route.length - 1)
                - cache_at (op._sol_state.fwd_costs op.s_vehicle) (op.s_rank + 1))
              - (cache_at (op._sol_state.bwd_costs op.s_vehicle) (op.s_route.length - 1)
                - cache_at (op._sol_state.bwd_costs op.s_vehicle) (op.s_rank + 1)))
          + (if op.t_rank = op.t_route.length - 1 then
              match (op._input._vehicles op.t_vehicle).end_ with
              | some e => - ((op._input.get_matrix
                    (job_at op._input op.s_route (op.s_rank + 1)) e : Nat) : Int)
                  + ((op._input.get_matrix t_index e : Nat) : Int)
              | none => 0
            else - ((op._input.get_matrix (job_at op._input op.s_route (op.s_rank + 1))
                (job_at op._input op.t_route (op.t_rank + 1)) : Nat) : Int))
        else 0)) := by
  have hi := h.s_rank_lt
  by_cases hl : op.s_rank = op.s_route.length - 1
  · rw [beq_last_true hl, if_neg (not_not.mpr hl)]
    simp [gain_move_source]
  · have h1 := getElem?_eq_getD op.s_route (op.s_rank + 1) (by omega)
    have h2 := getElem?_eq_getD (op._sol_state.fwd_costs op.s_vehicle) (op.s_rank + 1)
      (by rw [h.fwd_s]; omega)
    have h3 := getElem?_eq_getD (op._sol_state.bwd_costs op.s_vehicle) (op.s_rank + 1)
      (by rw [h.bwd_s]; omega)
    have h4 := getLast?_eq_getD (op._sol_state.fwd_costs op.s_vehicle) (by rw [h.fwd_s]; omega)
    have h5 := getLast?_eq_getD (op._sol_state.bwd_costs op.s_vehicle) (by rw [h.bwd_s]; omega)
    rw [h.fwd_s] at h4
    rw [h.bwd_s] at h5
    rw [beq_last_false hl, if_pos hl]
    simp only [gain_move_source, Bool.not_false, if_true,
      h1, h2, h3, h4, h5, Option.bind_eq_bind, Option.some_bind,
      gain_source_junction_eq op h, Option.some.injEq, job_at, cache_at]
    ring

theorem gain_source_end_eq (op : cvrp_reverse_two_opt) (last_s first_t : Nat) (g : Int) :
    gain_source_end op last_s first_t g
      = some (g + (match (op._input._vehicles op.s_vehicle).end_ with
          | some e => ((op._input.get_matrix last_s e : Nat) : Int)
              - ((op._input.get_matrix first_t e : Nat) : Int)
          | none => 0)) := by
  cases he : (op._input._vehicles op.s_vehicle).end_ with
  | none => simp [gain_source_end, he, vehicle_t.has_end]
  | some e =>
    simp only [gain_source_end, he, vehicle_t.has_end, Option.isSome_some, if_true,
      Option.bind_eq_bind, Option.some_bind, Option.pure_def, Option.some.injEq]
    ring

theorem gain_target_first_eq (op : cvrp_reverse_two_opt) (h : gain_ready op)
    (t_index last_s start_t : Nat) (g : Int) :
    gain_target_first op t_index last_s start_t (op.s_rank == op.s_route.length - 1)
        (op.t_rank == op.t_route.length - 1) g
      = some (g + (if op.s_rank ≠ op.s_route.length - 1
          then - ((op._input.get_matrix start_t last_s : Nat) : Int)
          else if op.t_rank ≠ op.t_route.length - 1
          then - ((op._input.get_matrix start_t
              (job_at op._input op.t_route (op.t_rank + 1)) : Nat) : Int)
          else match (op._input._vehicles op.t_vehicle).end_ with
            | some e => ((op._input.get_matrix t_index e : Nat) : Int)
            | none => 0)) := by
  have hj := h.t_rank_lt
  by_cases hl : op.s_rank = op.s_route.length - 1
  · rw [beq_last_true hl, if_neg (not_not.mpr hl)]
    by_cases hl2 : op.t_rank = op.t_route.length - 1
    · rw [beq_last_true hl2, if_neg (not_not.mpr hl2)]
      cases he : (op._input._vehicles op.t_vehicle).end_ with
      | none => simp [gain_target_first, he, vehicle_t.has_end]
      | some e => simp [gain_target_first, he, vehicle_t.has_end]
    · have h1 := getElem?_eq_getD op.t_route (op.t_rank + 1) (by omega)
      rw [beq_last_false hl2, if_pos hl2]
      simp only [gain_target_first, h1, job_at, Bool.not_true, Bool.not_false,
        Bool.false_eq_true, if_false, if_true,
        Option.bind_eq_bind, Option.some_bind, Option.pure_def, Option.some.injEq]
      ring
  · rw [beq_last_false hl, if_pos hl]
    simp only [gain_target_first, Bool.not_false, if_true, Option.pure_def,
      Option.some.injEq]
    ring

theorem gain_target_start_eq (op : cvrp_reverse_two_opt) (h : gain_ready op)
    (t_index last_s first_t : Nat) (g : Int) :
    gain_target_start op t_index last_s first_t (op.s_rank == op.s_route.length - 1)
        (op.t_rank == op.t_route.length - 1) g
      = some (g + (match (op._input._vehicles op.t_vehicle).start with
          | some s => ((op._input.get_matrix s first_t : Nat) : Int)
            + (if op.s_rank ≠ op.s_route.length - 1
              then - ((op._input.get_matrix s last_s : Nat) : Int)
              else if op.t_rank ≠ op.t_route.length - 1
              then - ((op._input.get_matrix s
                  (job_at op._input op.t_route (op.t_rank + 1)) : Nat) : Int)
              else match (op._input._vehicles op.t_vehicle).end_ with
                | some e => ((op._input.get_matrix t_index e : Nat) : Int)
                | none => 0)
          | none => 0)) := by
  cases hs : (op._input._vehicles op.t_vehicle).start with
  | none => simp [gain_target_start, hs, vehicle_t.has_start]
  | some s =>
    simp only [gain_target_start, hs, vehicle_t.has_start, Option.isSome_some, if_true,
      Option.bind_eq_bind, Option.some_bind, gain_target_first_eq op h, Option.some.injEq]
    ring

theorem compute_gain_eq_six_step (op : cvrp_reverse_two_opt) (h : gain_ready op) :
    op.compute_gain
      = some { op with stored_gain := six_step_gain op, gain_computed := true } := by
  have hi := h.s_rank_lt
  have hj := h.t_rank_lt
  simp only [cvrp_reverse_two_opt.compute_gain]
  rw [getElem?_eq_getD op.s_route op.s_rank hi, getElem?_eq_getD op.t_route op.t_rank hj,
    getLast?_eq_getD op.s_route (by omega), head?_eq_getD op.t_route (by omega)]
  simp only [Option.bind_eq_bind, Option.some_bind, gain_reverse_target_eq op h,
    gain_spare_target_edge_eq op h, gain_move_source_eq op h, gain_source_end_eq,
    gain_target_start_eq op h, Option.pure_def, Option.some.injEq]
  congr 1
  simp only [six_step_gain, job_at]
  ring

/-! ## Lemmas on `apply` -/

theorem slice_zero (r : List Nat) (b : Nat) : slice r 0 b = r.take (b + 1) := by
  simp [slice]

theorem apply_insert_target_eq (Rs Rt : List Nat) (n : Nat) (hn : n ≤ Rs.length) :
    apply_insert_target Rs Rt n = some ((Rs.reverse.take n) ++ Rt) := by
  simp [apply_insert_target, it_add, rrange_of, range_of, vec_insert, hn]

theorem apply_erase_source_eq (Rs : List Nat) (i : Nat) (hi : i < Rs.length) :
    apply_erase_source Rs i = some (Rs.take (i + 1)) := by
  have h1 : i ≤ Rs.length := by omega
  have h2 : i + 1 ≤ Rs.length := by omega
  simp [apply_erase_source, it_add, vec_erase, h1, h2]

theorem reverse_window (T : List Nat) (k w : Nat) (h : k + w ≤ T.length) :
    (T.reverse.drop (T.length - k - w)).take w = ((T.drop k).take w).reverse := by
  have e1 : T.length - (T.length - k - w) = k + w := by omega
  have e2 : (T.take (k + w)).length - w = k := by
    rw [List.length_take]; omega
  rw [List.drop_reverse, e1, List.take_reverse, e2, List.drop_take]
  congr 2
  omega

theorem apply_insert_source_eq (S T : List Nat) (j n : Nat) (hj : j + n + 1 ≤ T.length) :
    apply_insert_source S T j n
      = some (S ++ ((T.drop n).take (j + 1)).reverse) := by
  have h1 : j ≤ T.length := by omega
  have h2 : n ≤ T.length - j := by omega
  have h3 : 1 ≤ T.length - j - n := by omega
  have h4 : n ≤ T.length := by omega
  have h5 : T.length - j - n - 1 ≤ T.length - n := by omega
  have e : T.length - n - (T.length - j - n - 1) = j + 1 := by omega
  have e2 : T.length - j - n - 1 = T.length - n - (j + 1) := by omega
  have w := reverse_window T n (j + 1) (by omega)
  simp [apply_insert_source, it_sub, rrange_of, range_of, vec_insert, h1, h2, h3, h4, h5, e]
  rw [e2, w]

theorem apply_erase_target_eq (T : List Nat) (j n : Nat) (hj : j + n + 1 ≤ T.length) :
    apply_erase_target T j n = some (T.take n ++ T.drop (n + j + 1)) := by
  have h1 : n ≤ T.length := by omega
  have h2 : n + j ≤ T.length := by omega
  have h3 : n + j + 1 ≤ T.length := by omega
  simp [apply_erase_target, it_add, vec_erase, h1, h2, h3]
  omega

theorem take_append_len (A B : List Nat) (n : Nat) (h : A.length = n) :
    (A ++ B).take n = A := by
  subst h; simp

theorem drop_append_len (A B : List Nat) (n k : Nat) (h : A.length = n) :
    (A ++ B).drop (n + k) = B.drop k := by
  subst h
  rw [List.drop_append]

theorem apply_eq_some (op : cvrp_reverse_two_opt)
    (hi : op.s_rank < op.s_route.length) (hj : op.t_rank < op.t_route.length) :
    op.apply = some { op with
      s_route := new_source op.s_route op.t_route op.s_rank op.t_rank,
      t_route := new_target op.s_route op.t_route op.s_rank op.t_rank } := by
  obtain ⟨inp, st, Rs, S, i, Rt, T, j, g, gc⟩ := op
  simp only at hi hj
  have hn : Rs.length - 1 - i ≤ Rs.length := by omega
  have hA : Rs.reverse.take (Rs.length - 1 - i) = (Rs.drop (i + 1)).reverse := by
    rw [List.take_reverse]
    congr 2
    omega
  have hAlen : ((Rs.drop (i + 1)).reverse).length = Rs.length - 1 - i := by
    simp; omega
  have hb : j + (Rs.length - 1 - i) + 1
      ≤ ((Rs.reverse.take (Rs.length - 1 - i)) ++ Rt).length := by
    rw [hA, List.length_append, hAlen]; omega
  simp only [cvrp_reverse_two_opt.apply, apply_insert_target_eq Rs Rt _ hn,
    apply_erase_source_eq Rs i hi, Option.bind_eq_bind, Option.some_bind,
    apply_insert_source_eq _ _ j _ hb, apply_erase_target_eq _ j _ hb]
  rw [hA]
  have d0 := drop_append_len _ Rt _ 0 hAlen
  have d1 := drop_append_len _ Rt _ (j + 1) hAlen
  have t0 := take_append_len _ Rt _ hAlen
  simp only [Nat.add_zero, List.drop_zero] at d0
  rw [Nat.add_assoc, d0, d1, t0]
  simp [new_source, new_target, slice, slice_from]

/-! ## Lemmas on brute-force costs -/

theorem path_cost_cons (inp : input) (a : Nat) (R : List Nat) :
    path_cost inp (a :: R) = link_cost inp (some a) R.head? + path_cost inp R := by
  cases R with
  | nil => simp [path_cost, link_cost]
  | cons b R => simp [path_cost, link_cost]

theorem path_cost_append (inp : input) (A B : List Nat) :
    path_cost inp (A ++ B)
      = path_cost inp A + link_cost inp A.getLast? B.head? + path_cost inp B := by
  induction A with
  | nil => simp [path_cost, link_cost]
  | cons a A ih =>
    cases A with
    | nil =>
      simp only [List.singleton_append, path_cost_cons, List.head?_nil, List.getLast?_singleton]
      simp [path_cost, link_cost]
    | cons a2 A =>
      rw [List.cons_append, path_cost_cons, ih, path_cost_cons inp a (a2 :: A)]
      simp only [List.cons_append, List.head?_cons, List.getLast?_cons_cons]
      omega

theorem total_cost_eq (inp : input) (v : vehicle_t) (R : List Nat) :
    total_cost inp v R
      = start_link inp v R.head? + path_cost inp R + end_link inp v R.getLast? := by
  cases R with
  | nil => simp [total_cost, start_link, end_link, path_cost]
  | cons a R =>
    obtain ⟨l, hl⟩ : ∃ l, (a :: R).getLast? = some l :=
      ⟨_, List.getLast?_eq_getLast _ (List.cons_ne_nil a R)⟩
    simp only [total_cost, List.head?_cons, hl, start_link, end_link]

theorem ends_take (R : List Nat) (r : Nat) (h : r < R.length) :
    (R.take (r + 1)).head? = some (R.getD 0 0) ∧
    (R.take (r + 1)).getLast? = some (R.getD r 0) := by
  constructor
  · rw [List.head?_take, if_neg (by omega), head?_eq_getD R (by omega)]
  · rw [List.getLast?_take, if_neg (by omega), Nat.add_sub_cancel, getElem?_eq_getD R r h]
    rfl

theorem ends_drop (R : List Nat) (r : Nat) (h : r + 1 < R.length) :
    (R.drop (r + 1)).head? = some (R.getD (r + 1) 0) ∧
    (R.drop (r + 1)).getLast? = some (R.getD (R.length - 1) 0) := by
  constructor
  · rw [List.head?_drop, getElem?_eq_getD R _ h]
  · rw [List.getLast?_drop, if_neg (by omega), getLast?_eq_getD R (by omega)]

theorem drop_after_last (R : List Nat) (r : Nat) (h : r = R.length - 1) :
    R.drop (r + 1) = [] := by
  rw [List.drop_eq_nil_iff]
  omega

theorem fwd_costs_of_at (inp : input) (R : List Nat) (r : Nat) (h : r < R.length) :
    cache_at (fwd_costs_of inp R) r = (path_cost inp (R.take (r + 1)) : Nat) := by
  rw [cache_at, fwd_costs_of, range_map_getD _ _ _ h, slice_zero]

theorem bwd_costs_of_at (inp : input) (R : List Nat) (r : Nat) (h : r < R.length) :
    cache_at (bwd_costs_of inp R) r = (path_cost inp (R.take (r + 1)).reverse : Nat) := by
  rw [cache_at, bwd_costs_of, range_map_getD _ _ _ h, slice_zero]

theorem path_cost_split (inp : input) (R : List Nat) (r : Nat) (h : r < R.length) :
    path_cost inp R
      = path_cost inp (R.take (r + 1))
        + link_cost inp (some (R.getD r 0)) (R.drop (r + 1)).head?
        + path_cost inp (R.drop (r + 1)) := by
  conv_lhs => rw [← List.take_append_drop (r + 1) R]
  rw [path_cost_append, (ends_take R r h).2]

theorem path_cost_reverse_split (inp : input) (R : List Nat) (r : Nat) (h : r < R.length) :
    path_cost inp R.reverse
      = path_cost inp (R.drop (r + 1)).reverse
        + link_cost inp (R.drop (r + 1)).head? (some (R.getD r 0))
        + path_cost inp (R.take (r + 1)).reverse := by
  conv_lhs => rw [← List.take_append_drop (r + 1) R]
  rw [List.reverse_append, path_cost_append, List.getLast?_reverse, List.head?_reverse,
    (ends_take R r h).2]

theorem path_cost_take_succ (inp : input) (R : List Nat) (r : Nat) (h : r + 1 < R.length) :
    path_cost inp (R.take (r + 1 + 1))
      = path_cost inp (R.take (r + 1)) + edge_cost inp (R.getD r 0) (R.getD (r + 1) 0) := by
  have e : R.take (r + 1 + 1) = R.take (r + 1) ++ [R.getD (r + 1) 0] := by
    rw [List.take_succ, getElem?_eq_getD R _ h]
    rfl
  rw [e, path_cost_append, (ends_take R r (by omega)).2]
  simp [link_cost, path_cost]

theorem path_cost_reverse_take_succ (inp : input) (R : List Nat) (r : Nat)
    (h : r + 1 < R.length) :
    path_cost inp (R.take (r + 1 + 1)).reverse
      = edge_cost inp (R.getD (r + 1) 0) (R.getD r 0)
        + path_cost inp (R.take (r + 1)).reverse := by
  have e : R.take (r + 1 + 1) = R.take (r + 1) ++ [R.getD (r + 1) 0] := by
    rw [List.take_succ, getElem?_eq_getD R _ h]
    rfl
  rw [e, List.reverse_append, path_cost_append, List.head?_reverse,
    (ends_take R r (by omega)).2]
  simp [link_cost, path_cost]

theorem take_all (R : List Nat) (h : 0 < R.length) : R.take (R.length - 1 + 1) = R := by
  rw [Nat.sub_add_cancel h, List.take_length]

theorem total_cost_ends (inp : input) (v : vehicle_t) (R : List Nat) (h : 0 < R.length) :
    total_cost inp v R
      = start_cost inp v (R.getD 0 0) + path_cost inp R
        + end_cost inp v (R.getD (R.length - 1) 0) := by
  rw [total_cost_eq, head?_eq_getD R h, getLast?_eq_getD R h]
  rfl

theorem total_cost_new_source (inp : input) (v : vehicle_t) (Rs Rt : List Nat) (i j : Nat)
    (hi : i < Rs.length) (hj : j < Rt.length) :
    total_cost inp v (new_source Rs Rt i j)
      = start_cost inp v (Rs.getD 0 0)
        + (path_cost inp (Rs.take (i + 1)) + edge_cost inp (Rs.getD i 0) (Rt.getD j 0)
            + path_cost inp (Rt.take (j + 1)).reverse)
        + end_cost inp v (Rt.getD 0 0) := by
  obtain ⟨a0, ax⟩ := ends_take Rs i hi
  obtain ⟨c0, cy⟩ := ends_take Rt j hj
  rw [total_cost_eq, new_source, slice_zero, slice_zero, path_cost_append, List.head?_append,
    List.getLast?_append, List.getLast?_reverse, List.head?_reverse, a0, ax, c0, cy]
  rfl

theorem total_cost_new_target (inp : input) (v : vehicle_t) (Rs Rt : List Nat) (i j : Nat) :
    total_cost inp v (new_target Rs Rt i j)
      = start_link inp v ((Rs.drop (i + 1)).getLast?.or (Rt.drop (j + 1)).head?)
        + (path_cost inp (Rs.drop (i + 1)).reverse
            + link_cost inp (Rs.drop (i + 1)).head? (Rt.drop (j + 1)).head?
            + path_cost inp (Rt.drop (j + 1)))
        + end_link inp v ((Rt.drop (j + 1)).getLast?.or (Rs.drop (i + 1)).head?) := by
  rw [total_cost_eq, new_target, slice_from, slice_from, path_cost_append, List.head?_append,
    List.getLast?_append, List.getLast?_reverse, List.head?_reverse]

set_option maxHeartbeats 1000000 in
theorem six_step_gain_eq (op : cvrp_reverse_two_opt)
    (hi : op.s_rank < op.s_route.length) (hj : op.t_rank < op.t_route.length)
    (hc : costs_exact op) :
    six_step_gain op
      = brute_force_gain op._input op.s_vehicle op.t_vehicle op.s_route op.t_route
          op.s_rank op.t_rank - (missed_end_edge op : Int) := by
  obtain ⟨h1, h2, h3, h4⟩ := hc
  obtain ⟨inp, st, Rs, S, i, Rt, T, j, g, gc⟩ := op
  simp only at hi hj h1 h2 h3 h4
  have tRs := total_cost_ends inp (inp._vehicles S) Rs (by omega)
  have tRt := total_cost_ends inp (inp._vehicles T) Rt (by omega)
  have tNs := total_cost_new_source inp (inp._vehicles S) Rs Rt i j hi hj
  have tNt := total_cost_new_target inp (inp._vehicles T) Rs Rt i j
  have pRs := path_cost_split inp Rs i hi
  have pRt := path_cost_split inp Rt j hj
  have qRs := path_cost_reverse_split inp Rs i hi
  have fT := fwd_costs_of_at inp Rt j hj
  have bT := bwd_costs_of_at inp Rt j hj
  have fS := fwd_costs_of_at inp Rs (Rs.length - 1) (by omega)
  have bS := bwd_costs_of_at inp Rs (Rs.length - 1) (by omega)
  rw [take_all Rs (by omega)] at fS bS
  simp only [six_step_gain, brute_force_gain, missed_end_edge, h1, h2, h3, h4, fT, bT, fS, bS,
    tRs, tRt, tNs, tNt, job_at]
  by_cases hl1 : i = Rs.length - 1
  · have eB := drop_after_last Rs i hl1
    by_cases hl2 : j = Rt.length - 1
    · have eD := drop_after_last Rt j hl2
      rw [eB] at pRs qRs
      rw [eD] at pRt
      simp only [eB, eD, pRs, pRt]
      rw [← hl1, ← hl2]
      cases hs : (inp._vehicles T).start <;> cases he : (inp._vehicles T).end_ <;>
        cases hes : (inp._vehicles S).end_ <;>
        simp [start_cost, end_cost, edge_cost, link_cost, start_link, end_link, hs, he, hes,
          path_cost, hl1, hl2]
      all_goals omega
    · obtain ⟨d0, d1⟩ := ends_drop Rt j (by omega)
      rw [eB] at pRs qRs
      rw [d0] at pRt
      simp only [eB, d0, d1, pRs, pRt]
      rw [← hl1]
      cases hs : (inp._vehicles T).start <;> cases he : (inp._vehicles T).end_ <;>
        cases hes : (inp._vehicles S).end_ <;>
        simp [start_cost, end_cost, edge_cost, link_cost, start_link, end_link, hs, he, hes,
          path_cost, hl1, hl2]
      all_goals omega
  · obtain ⟨b0, b1⟩ := ends_drop Rs i (by omega)
    have fS1 := fwd_costs_of_at inp Rs (i + 1) (by omega)
    have bS1 := bwd_costs_of_at inp Rs (i + 1) (by omega)
    rw [path_cost_take_succ inp Rs i (by omega)] at fS1
    rw [path_cost_reverse_take_succ inp Rs i (by omega)] at bS1
    rw [b0] at pRs qRs
    by_cases hl2 : j = Rt.length - 1
    · have eD := drop_after_last Rt j hl2
      rw [eD] at pRt
      simp only [b0, b1, eD, pRs, pRt, qRs, fS1, bS1]
      rw [← hl2]
      cases hs : (inp._vehicles T).start <;> cases he : (inp._vehicles T).end_ <;>
        cases hes : (inp._vehicles S).end_ <;>
        simp [start_cost, end_cost, edge_cost, link_cost, start_link, end_link, hs, he, hes,
          path_cost, hl1, hl2]
      all_goals omega
    · obtain ⟨d0, d1⟩ := ends_drop Rt j (by omega)
      rw [d0] at pRt
      simp only [b0, b1, d0, d1, pRs, pRt, qRs, fS1, bS1]
      cases hs : (inp._vehicles T).start <;> cases he : (inp._vehicles T).end_ <;>
        cases hes : (inp._vehicles S).end_ <;>
        simp [start_cost, end_cost, edge_cost, link_cost, start_link, end_link, hs, he, hes,
          path_cost, hl1, hl2]
      all_goals omega

/-- The gain stored by `compute_gain` on exact cost caches is the brute-force
gain minus the edge to the end depot that is left out when the target route
of a vehicle without start depot is emptied. -/
theorem computed_gain_eq (op : cvrp_reverse_two_opt)
    (hi : op.s_rank < op.s_route.length) (hj : op.t_rank < op.t_route.length)
    (hc : costs_exact op) :
    computed_gain op
      = some (brute_force_gain op._input op.s_vehicle op.t_vehicle op.s_route op.t_route
          op.s_rank op.t_rank - (missed_end_edge op : Int)) := by
  have hr : gain_ready op := by
    refine ⟨hi, hj, ?_, ?_, ?_, ?_⟩
    · rw [hc.fwd_s]; simp [fwd_costs_of]
    · rw [hc.bwd_s]; simp [bwd_costs_of]
    · rw [hc.fwd_t]; simp [fwd_costs_of]
    · rw [hc.bwd_t]; simp [bwd_costs_of]
  rw [computed_gain, compute_gain_eq_six_step op hr, Option.map_some',
    six_step_gain_eq op hi hj hc]

/-! ## Lemmas on `is_valid` -/

theorem is_valid_eq (op : cvrp_reverse_two_opt) (fs ft bt bs : Nat)
    (hfs : (op._sol_state.fwd_amounts op.s_vehicle)[op.s_rank]? = some fs)
    (hft : (op._sol_state.fwd_amounts op.t_vehicle)[op.t_rank]? = some ft)
    (hbt : (op._sol_state.bwd_amounts op.t_vehicle)[op.t_rank]? = some bt)
    (hbs : (op._sol_state.bwd_amounts op.s_vehicle)[op.s_rank]? = some bs) :
    op.is_valid
      = some (decide (op._sol_state.bwd_skill_rank op.s_vehicle op.t_vehicle ≤ op.s_rank + 1)
          && decide (op.t_rank < op._sol_state.fwd_skill_rank op.t_vehicle op.s_vehicle)
          && decide (fs + ft ≤ (op._input._vehicles op.s_vehicle).capacity)
          && decide (bt + bs ≤ (op._input._vehicles op.t_vehicle).capacity), op) := by
  simp only [cvrp_reverse_two_opt.is_valid, hfs, hft, hbt, hbs, Option.bind_eq_bind,
    Option.some_bind, Option.pure_def]

theorem amounts_ready_reads (op : cvrp_reverse_two_opt)
    (hi : op.s_rank < op.s_route.length) (hj : op.t_rank < op.t_route.length)
    (ha : amounts_ready op) :
    (op._sol_state.fwd_amounts op.s_vehicle)[op.s_rank]?
        = some ((op._sol_state.fwd_amounts op.s_vehicle).getD op.s_rank 0) ∧
    (op._sol_state.fwd_amounts op.t_vehicle)[op.t_rank]?
        = some ((op._sol_state.fwd_amounts op.t_vehicle).getD op.t_rank 0) ∧
    (op._sol_state.bwd_amounts op.t_vehicle)[op.t_rank]?
        = some ((op._sol_state.bwd_amounts op.t_vehicle).getD op.t_rank 0) ∧
    (op._sol_state.bwd_amounts op.s_vehicle)[op.s_rank]?
        = some ((op._sol_state.bwd_amounts op.s_vehicle).getD op.s_rank 0) :=
  ⟨getElem?_eq_getD _ _ (by rw [ha.fwd_s]; exact hi),
   getElem?_eq_getD _ _ (by rw [ha.fwd_t]; exact hj),
   getElem?_eq_getD _ _ (by rw [ha.bwd_t]; exact hj),
   getElem?_eq_getD _ _ (by rw [ha.bwd_s]; exact hi)⟩

/-! ## Lemmas on demands -/

theorem demand_append (inp : input) (A B : List Nat) :
    demand inp (A ++ B) = demand inp A + demand inp B := by
  simp [demand]

theorem demand_reverse (inp : input) (A : List Nat) :
    demand inp A.reverse = demand inp A := by
  simp [demand, List.sum_reverse]

theorem demand_new_source (inp : input) (Rs Rt : List Nat) (i j : Nat) :
    demand inp (new_source Rs Rt i j)
      = demand inp (slice Rs 0 i) + demand inp (slice Rt 0 j) := by
  rw [new_source, demand_append, demand_reverse]

theorem demand_new_target (inp : input) (Rs Rt : List Nat) (i j : Nat) :
    demand inp (new_target Rs Rt i j)
      = demand inp (slice_from Rs (i + 1)) + demand inp (slice_from Rt (j + 1)) := by
  rw [new_target, demand_append, demand_reverse]

theorem demand_slice_from (inp : input) (R : List Nat) (r : Nat) (h : r < R.length) :
    demand inp (slice_from R r)
      = amount_of_rank inp R r + demand inp (slice_from R (r + 1)) := by
  have e : R.drop r = R.getD r 0 :: R.drop (r + 1) := by
    rw [List.getD_eq_getElem _ _ h]
    exact List.drop_eq_getElem_cons h
  simp only [slice_from, amount_of_rank]
  rw [e]
  simp [demand]

theorem fwd_amounts_of_at (inp : input) (R : List Nat) (r : Nat) (h : r < R.length) :
    amount_at (fwd_amounts_of inp R) r = demand inp (slice R 0 r) :=
  range_map_getD _ _ _ h

theorem bwd_amounts_of_at (inp : input) (R : List Nat) (r : Nat) (h : r < R.length) :
    amount_at (bwd_amounts_of inp R) r = demand inp (slice_from R r) :=
  range_map_getD _ _ _ h

theorem amounts_exact_ready (op : cvrp_reverse_two_opt) (ha : amounts_exact op) :
    amounts_ready op := by
  refine ⟨?_, ?_, ?_, ?_⟩
  · rw [ha.fwd_s]; simp [fwd_amounts_of]
  · rw [ha.bwd_s]; simp [bwd_amounts_of]
  · rw [ha.fwd_t]; simp [fwd_amounts_of]
  · rw [ha.bwd_t]; simp [bwd_amounts_of]

/-- The value `is_valid` returns on exact amount caches, in terms of the
brute-force demands of the slices of the two routes. -/
theorem is_valid_exact (op : cvrp_reverse_two_opt)
    (hi : op.s_rank < op.s_route.length) (hj : op.t_rank < op.t_route.length)
    (ha : amounts_exact op) :
    op.is_valid
      = some (decide (op._sol_state.bwd_skill_rank op.s_vehicle op.t_vehicle ≤ op.s_rank + 1)
          && decide (op.t_rank < op._sol_state.fwd_skill_rank op.t_vehicle op.s_vehicle)
          && decide (demand op._input (slice op.s_route 0 op.s_rank)
                + demand op._input (slice op.t_route 0 op.t_rank)
              ≤ (op._input._vehicles op.s_vehicle).capacity)
          && decide (demand op._input (slice_from op.t_route op.t_rank)
                + demand op._input (slice_from op.s_route op.s_rank)
              ≤ (op._input._vehicles op.t_vehicle).capacity), op) := by
  obtain ⟨r1, r2, r3, r4⟩ := amounts_ready_reads op hi hj (amounts_exact_ready op ha)
  rw [is_valid_eq op _ _ _ _ r1 r2 r3 r4]
  have e1 := fwd_amounts_of_at op._input op.s_route op.s_rank hi
  have e2 := fwd_amounts_of_at op._input op.t_route op.t_rank hj
  have e3 := bwd_amounts_of_at op._input op.t_route op.t_rank hj
  have e4 := bwd_amounts_of_at op._input op.s_route op.s_rank hi
  rw [← ha.fwd_s] at e1
  rw [← ha.fwd_t] at e2
  rw [← ha.bwd_t] at e3
  rw [← ha.bwd_s] at e4
  simp only [amount_at] at e1 e2 e3 e4
  rw [e1, e2, e3, e4]

theorem bwd_amounts_after_at (inp : input) (R : List Nat) (r : Nat) (h : r < R.length) :
    amount_at (bwd_amounts_after inp R) r = demand inp (slice_from R (r + 1)) :=
  range_map_getD _ _ _ h

theorem amounts_as_read_ready (op : cvrp_reverse_two_opt) (ha : amounts_as_read op) :
    amounts_ready op := by
  refine ⟨?_, ?_, ?_, ?_⟩
  · rw [ha.fwd_s]; simp [fwd_amounts_of]
  · rw [ha.bwd_s]; simp [bwd_amounts_after]
  · rw [ha.fwd_t]; simp [fwd_amounts_of]
  · rw [ha.bwd_t]; simp [bwd_amounts_after]

/-- The two sums `is_valid` compares with the capacities are the brute-force
demands of the two new routes, on amount caches whose suffix sums leave the
rank out. -/
theorem compared_amounts_as_read (op : cvrp_reverse_two_opt)
    (hi : op.s_rank < op.s_route.length) (hj : op.t_rank < op.t_route.length)
    (ha : amounts_as_read op) :
    amount_at (op._sol_state.fwd_amounts op.s_vehicle) op.s_rank
        + amount_at (op._sol_state.fwd_amounts op.t_vehicle) op.t_rank
      = demand op._input (new_source op.s_route op.t_route op.s_rank op.t_rank) ∧
    amount_at (op._sol_state.bwd_amounts op.t_vehicle) op.t_rank
        + amount_at (op._sol_state.bwd_amounts op.s_vehicle) op.s_rank
      = demand op._input (new_target op.s_route op.t_route op.s_rank op.t_rank) := by
  rw [ha.fwd_s, ha.fwd_t, ha.bwd_s, ha.bwd_t, fwd_amounts_of_at _ _ _ hi,
    fwd_amounts_of_at _ _ _ hj, bwd_amounts_after_at _ _ _ hi, bwd_amounts_after_at _ _ _ hj,
    demand_new_source, demand_new_target]
  exact ⟨rfl, Nat.add_comm _ _⟩

/-- The value `is_valid` returns, in terms of the entries it reads. -/
theorem is_valid_reads (op : cvrp_reverse_two_opt)
    (hi : op.s_rank < op.s_route.length) (hj : op.t_rank < op.t_route.length)
    (ha : amounts_ready op) :
    op.is_valid
      = some (decide (op._sol_state.bwd_skill_rank op.s_vehicle op.t_vehicle ≤ op.s_rank + 1)
          && decide (op.t_rank < op._sol_state.fwd_skill_rank op.t_vehicle op.s_vehicle)
          && decide (amount_at (op._sol_state.fwd_amounts op.s_vehicle) op.s_rank
                + amount_at (op._sol_state.fwd_amounts op.t_vehicle) op.t_rank
              ≤ (op._input._vehicles op.s_vehicle).capacity)
          && decide (amount_at (op._sol_state.bwd_amounts op.t_vehicle) op.t_rank
                + amount_at (op._sol_state.bwd_amounts op.s_vehicle) op.s_rank
              ≤ (op._input._vehicles op.t_vehicle).capacity), op) := by
  obtain ⟨r1, r2, r3, r4⟩ := amounts_ready_reads op hi hj ha
  exact is_valid_eq op _ _ _ _ r1 r2 r3 r4

/-! ## Lemmas on skill ranks -/

theorem takeWhile_covers (p : Nat → Bool) (R : List Nat) :
    ∀ n, n ≤ (R.takeWhile p).length → ∀ x ∈ R.take n, p x = true := by
  induction R with
  | nil => intro n _ x hx; simp at hx
  | cons a R ih =>
    intro n hn x hx
    cases n with
    | zero => simp at hx
    | succ n =>
      by_cases hp : p a = true
      · simp only [List.takeWhile_cons, hp, if_true, List.length_cons] at hn
        simp only [List.take_succ_cons, List.mem_cons] at hx
        rcases hx with rfl | hx
        · exact hp
        · exact ih n (by omega) x hx
      · simp [List.takeWhile_cons, hp] at hn

theorem takeWhile_stops (p : Nat → Bool) (R : List Nat) :
    ∀ n, (R.takeWhile p).length < n → n ≤ R.length → ∃ x ∈ R.take n, p x = false := by
  induction R with
  | nil => intro n h1 h2; simp at h1 h2; omega
  | cons a R ih =>
    intro n h1 h2
    cases n with
    | zero => omega
    | succ n =>
      by_cases hp : p a = true
      · simp only [List.takeWhile_cons, hp, if_true, List.length_cons] at h1 h2
        obtain ⟨x, hx, hpx⟩ := ih n (by omega) (by omega)
        exact ⟨x, by simp [hx], hpx⟩
      · exact ⟨a, by simp, by simpa using hp⟩

theorem drop_eq_reverse_take (R : List Nat) (k : Nat) :
    R.drop k = (R.reverse.take (R.length - k)).reverse := by
  rw [List.take_reverse, List.reverse_reverse]
  by_cases h : k ≤ R.length
  · congr 1; omega
  · have h1 : R.length - (R.length - k) = R.length := by omega
    rw [h1, List.drop_of_length_le (by omega), List.drop_of_length_le (Nat.le_refl _)]

theorem from_front_covers (inp : input) (v : Nat) (R : List Nat) (j : Nat)
    (h : j < skill_rank_from_front inp v R) :
    ∀ x ∈ slice R 0 j, vehicle_ok_with_job inp v x = true := by
  rw [slice_zero]
  exact takeWhile_covers _ R (j + 1) h

theorem from_front_stops (inp : input) (v : Nat) (R : List Nat) (j : Nat)
    (hj : j < R.length) (h : ¬ j < skill_rank_from_front inp v R) :
    ∃ x ∈ slice R 0 j, vehicle_ok_with_job inp v x = false := by
  rw [slice_zero]
  exact takeWhile_stops _ R (j + 1) (by simp only [skill_rank_from_front] at h; omega) hj

theorem from_back_covers (inp : input) (v : Nat) (R : List Nat) (k : Nat)
    (h : skill_rank_from_back inp v R ≤ k) :
    ∀ x ∈ slice_from R k, vehicle_ok_with_job inp v x = true := by
  intro x hx
  rw [slice_from, drop_eq_reverse_take, List.mem_reverse] at hx
  refine takeWhile_covers _ R.reverse (R.length - k) ?_ x hx
  simp only [skill_rank_from_back] at h
  omega

theorem from_back_stops (inp : input) (v : Nat) (R : List Nat) (k : Nat)
    (h : ¬ skill_rank_from_back inp v R ≤ k) :
    ∃ x ∈ slice_from R k, vehicle_ok_with_job inp v x = false := by
  simp only [skill_rank_from_back] at h
  obtain ⟨x, hx, hp⟩ := takeWhile_stops (vehicle_ok_with_job inp v) R.reverse (R.length - k)
    (by omega) (by simp)
  refine ⟨x, ?_, hp⟩
  rw [slice_from, drop_eq_reverse_take, List.mem_reverse]
  exact hx

theorem validity_true_skills (op : cvrp_reverse_two_opt) (hv : validity op = some true) :
    op._sol_state.bwd_skill_rank op.s_vehicle op.t_vehicle ≤ op.s_rank + 1 ∧
    op.t_rank < op._sol_state.fwd_skill_rank op.t_vehicle op.s_vehicle := by
  simp only [validity, cvrp_reverse_two_opt.is_valid, Option.bind_eq_bind, Option.pure_def,
    Option.map_eq_some', Option.bind_eq_some] at hv
  obtain ⟨r, ⟨fs, _, ft, _, bt, _, bs, _, hr⟩, hb⟩ := hv
  simp only [Option.some.injEq] at hr
  rw [← hr] at hb
  simp only [Bool.and_eq_true, decide_eq_true_eq] at hb
  exact ⟨hb.1.1.1, hb.1.1.2⟩

/-! ## Lemmas on the constructor and on repeated calls -/

theorem ctor_ok (inp : input) (st : solution_state) (Rs : List Nat) (S i : Nat)
    (Rt : List Nat) (T j : Nat)
    (h : S ≠ T ∧ Rs.length ≥ 1 ∧ Rt.length ≥ 1 ∧ i < Rs.length ∧ j < Rt.length) :
    cvrp_reverse_two_opt.ctor inp st Rs S i Rt T j
      = .ok (ls_operator inp st Rs S i Rt T j) := by
  obtain ⟨h1, h2, h3, h4, h5⟩ := h
  simp only [cvrp_reverse_two_opt.ctor, assert, bne_iff_ne, ne_eq, h1, not_false_eq_true,
    if_true, h2, h3, h4, h5, decide_True]
  rfl

theorem ctor_error (inp : input) (st : solution_state) (Rs : List Nat) (S i : Nat)
    (Rt : List Nat) (T j : Nat)
    (h : ¬ (S ≠ T ∧ Rs.length ≥ 1 ∧ Rt.length ≥ 1 ∧ i < Rs.length ∧ j < Rt.length)) :
    ∃ text, cvrp_reverse_two_opt.ctor inp st Rs S i Rt T j = .error text := by
  by_cases h1 : S ≠ T
  · by_cases h2 : Rs.length ≥ 1
    · by_cases h3 : Rt.length ≥ 1
      · by_cases h4 : i < Rs.length
        · have h5 : ¬ j < Rt.length := fun h5 => h ⟨h1, h2, h3, h4, h5⟩
          refine ⟨"t_rank < t_route.size()", ?_⟩
          simp only [cvrp_reverse_two_opt.ctor, assert, bne_iff_ne, ne_eq, h1,
            not_false_eq_true, if_true, h2, h3, h4, h5, decide_True, decide_False]
          rfl
        · refine ⟨"s_rank < s_route.size()", ?_⟩
          simp only [cvrp_reverse_two_opt.ctor, assert, bne_iff_ne, ne_eq, h1,
            not_false_eq_true, if_true, h2, h3, h4, decide_True, decide_False]
          rfl
      · refine ⟨"t_route.size() >= 1", ?_⟩
        simp only [cvrp_reverse_two_opt.ctor, assert, bne_iff_ne, ne_eq, h1,
          not_false_eq_true, if_true, h2, h3, decide_True, decide_False]
        rfl
    · refine ⟨"s_route.size() >= 1", ?_⟩
      simp only [cvrp_reverse_two_opt.ctor, assert, bne_iff_ne, ne_eq, h1,
        not_false_eq_true, if_true, h2, decide_True, decide_False]
      rfl
  · refine ⟨"s_vehicle != t_vehicle", ?_⟩
    simp only [cvrp_reverse_two_opt.ctor, assert, bne_iff_ne, ne_eq, h1, if_false]
    rfl

theorem repeat_is_valid_eq (op : cvrp_reverse_two_opt) (valid : Bool)
    (h : op.is_valid = some (valid, op)) :
    ∀ n, repeat_is_valid n op = some (List.replicate n valid, op) := by
  intro n
  induction n with
  | zero => rfl
  | succ n ih =>
    simp only [repeat_is_valid, h, ih, Option.bind_eq_bind, Option.some_bind, Option.pure_def,
      List.replicate_succ]

/-! ## Lemmas on what `apply` and `compute_gain` keep -/

theorem apply_keeps_anchors (op op1 : cvrp_reverse_two_opt) (h : op.apply = some op1) :
    op1.s_vehicle = op.s_vehicle ∧ op1.t_vehicle = op.t_vehicle ∧
    op1.s_rank = op.s_rank ∧ op1.t_rank = op.t_rank := by
  simp only [cvrp_reverse_two_opt.apply, Option.bind_eq_bind, Option.pure_def,
    Option.bind_eq_some, Option.some.injEq] at h
  obtain ⟨_, _, _, _, _, _, _, _, rfl⟩ := h
  exact ⟨rfl, rfl, rfl, rfl⟩

theorem missed_end_edge_eq_zero (op : cvrp_reverse_two_opt)
    (h : (op.s_rank ≠ op.s_route.length - 1 ∨ op.t_rank ≠ op.t_route.length - 1) ∨
      (op._input._vehicles op.t_vehicle).has_start = true ∨
      (op._input._vehicles op.t_vehicle).has_end = false) :
    missed_end_edge op = 0 := by
  unfold missed_end_edge
  split
  · rename_i hc
    obtain ⟨h1, h2, h3⟩ := hc
    rcases h with h | h | h
    · rcases h with h | h
      · exact absurd h1 h
      · exact absurd h2 h
    · simp [vehicle_t.has_start, h3] at h
    · have he : (op._input._vehicles op.t_vehicle).end_ = none := by
        simpa [vehicle_t.has_end] using h
      simp [end_cost, he]
  · rfl

theorem new_routes_perm (Rs Rt : List Nat) (i j : Nat) :
    (new_source Rs Rt i j ++ new_target Rs Rt i j).Perm (Rs ++ Rt) := by
  rw [List.perm_iff_count]
  intro a
  have hs : Rs.count a = (Rs.take (i + 1)).count a + (Rs.drop (i + 1)).count a := by
    rw [← List.count_append, List.take_append_drop]
  have ht : Rt.count a = (Rt.take (j + 1)).count a + (Rt.drop (j + 1)).count a := by
    rw [← List.count_append, List.take_append_drop]
  simp only [new_source, new_target, slice_zero, slice_from, List.count_append,
    List.count_reverse, hs, ht]
  omega

theorem new_source_length (Rs Rt : List Nat) (i j : Nat)
    (hi : i < Rs.length) (hj : j < Rt.length) :
    (new_source Rs Rt i j).length = i + j + 2 := by
  simp only [new_source, slice_zero, List.length_append, List.length_reverse, List.length_take]
  omega

theorem new_target_length (Rs Rt : List Nat) (i j : Nat) :
    (new_target Rs Rt i j).length = (Rs.length - (i + 1)) + (Rt.length - (j + 1)) := by
  simp only [new_target, slice_from, List.length_append, List.length_reverse, List.length_drop]

theorem compute_gain_ignores_gain (op : cvrp_reverse_two_opt) (hr : gain_ready op)
    (gain : Int) (flag : Bool) :
    ({ op with stored_gain := gain, gain_computed := flag } : cvrp_reverse_two_opt).compute_gain
      = some { op with stored_gain := six_step_gain op, gain_computed := true } := by
  have hr1 : gain_ready
      ({ op with stored_gain := gain, gain_computed := flag } : cvrp_reverse_two_opt) :=
    ⟨hr.s_rank_lt, hr.t_rank_lt, hr.fwd_s, hr.bwd_s, hr.fwd_t, hr.bwd_t⟩
  rw [compute_gain_eq_six_step _ hr1]
  rfl

theorem new_source_undone (Rs Rt : List Nat) (i j : Nat) (hi : i + 1 < Rs.length) :
    new_source (new_source Rs Rt i j) (new_target Rs Rt i j) i (Rs.length - i - 2) = Rs := by
  have hA : (Rs.take (i + 1)).length = i + 1 := by
    rw [List.length_take]; omega
  have hB : ((Rs.drop (i + 1)).reverse).length = Rs.length - i - 2 + 1 := by
    rw [List.length_reverse, List.length_drop]; omega
  simp only [new_source, new_target, slice_zero, slice_from]
  rw [take_append_len _ _ _ hA, take_append_len _ _ _ hB, List.reverse_reverse,
    List.take_append_drop]

theorem new_target_undone (Rs Rt : List Nat) (i j : Nat) (hi : i + 1 < Rs.length) :
    new_target (new_source Rs Rt i j) (new_target Rs Rt i j) i (Rs.length - i - 2) = Rt := by
  have hA : (Rs.take (i + 1)).length = i + 1 := by
    rw [List.length_take]; omega
  have hB : ((Rs.drop (i + 1)).reverse).length = Rs.length - i - 2 + 1 := by
    rw [List.length_reverse, List.length_drop]; omega
  have d1 := drop_append_len (Rs.take (i + 1)) (Rt.take (j + 1)).reverse (i + 1) 0 hA
  have d2 := drop_append_len (Rs.drop (i + 1)).reverse (Rt.drop (j + 1))
    (Rs.length - i - 2 + 1) 0 hB
  simp only [Nat.add_zero, List.drop_zero] at d1 d2
  simp only [new_source, new_target, slice_zero, slice_from]
  rw [d1, d2, List.reverse_reverse, List.take_append_drop]

/-! ## Claims -/

/-- C1: for every pair of routes and every ranks `i < |Rs|`, `j < |Rt|`,
whatever the input (depots of the vehicles included) and whether or not `i`
or `j` is the last rank, `apply` returns and leaves the source route equal to
`Rs[0..i] ++ reverse(Rt[0..j])` and the target route equal to
`reverse(Rs[i+1..end]) ++ Rt[j+1..end]`, every other member unchanged. -/
theorem apply_realises_move (op : cvrp_reverse_two_opt)
    (hi : op.s_rank < op.s_route.length) (hj : op.t_rank < op.t_route.length) :
    op.apply = some { op with
      s_route := slice op.s_route 0 op.s_rank ++ (slice op.t_route 0 op.t_rank).reverse,
      t_route := (slice_from op.s_route (op.s_rank + 1)).reverse
        ++ slice_from op.t_route (op.t_rank + 1) } ∧
    (op.s_rank = op.s_route.length - 1 → slice_from op.s_route (op.s_rank + 1) = []) ∧
    (op.t_rank = op.t_route.length - 1 → slice_from op.t_route (op.t_rank + 1) = []) := by
  refine ⟨apply_eq_some op hi hj, ?_, ?_⟩
  · intro h
    simp only [slice_from, List.drop_eq_nil_iff]
    omega
  · intro h
    simp only [slice_from, List.drop_eq_nil_iff]
    omega

/-- Witness of C1: the move at ranks `(2, 1)`, both last, of routes
`[1, 2, 3]` and `[4, 5]`. -/
theorem apply_realises_move_witness :
    (demo_move [1, 2, 3] [4, 5] 2 1).s_rank < (demo_move [1, 2, 3] [4, 5] 2 1).s_route.length ∧
    applied_routes (demo_move [1, 2, 3] [4, 5] 2 1) = some ([1, 2, 3, 5, 4], []) := by
  refine ⟨by decide, ?_⟩
  rw [applied_routes, (apply_realises_move (demo_move [1, 2, 3] [4, 5] 2 1)
    (by decide) (by decide)).1]
  rfl

/-- C2: the stored gain is not the brute-force gain when the move empties the
target route of a vehicle that has an end depot and no start depot.  On
`demo_input`, vehicle `1` has only an end depot at index `9`; the move at
ranks `(0, 0)` of the routes `[1]` and `[2]` has exact cost caches, the
brute-force gain is `cost(2, 9) - cost(1, 2) = 29 - 12 = 17`, and
`compute_gain` stores `-12`: the spared edge to the end depot, `29`, is counted
only inside the branch of the start depot.  In general the stored gain is the
brute-force gain minus `missed_end_edge` (`computed_gain_eq`). -/
theorem compute_gain_misses_end_edge :
    gain_ready (demo_move [1] [2] 0 0) ∧ costs_exact (demo_move [1] [2] 0 0) ∧
    computed_gain (demo_move [1] [2] 0 0) = some (-12) ∧
    brute_force_gain demo_input 0 1 [1] [2] 0 0 = 17 ∧
    computed_gain (demo_move [1] [2] 0 0)
      ≠ some (brute_force_gain demo_input 0 1 [1] [2] 0 0) ∧
    applied_routes (demo_move [1] [2] 0 0) = some ([1, 2], []) ∧
    missed_end_edge (demo_move [1] [2] 0 0) = 29 := by
  refine ⟨⟨?_, ?_, ?_, ?_, ?_, ?_⟩, ⟨?_, ?_, ?_, ?_⟩, ?_, ?_, ?_, ?_, ?_⟩ <;> decide

/-- C3: the scenario of the specification.  For every cost matrix and jobs
`a, b, c, d, e` (distinct or not), with two vehicles without start or end
depot, `Rs = [a, b, c]`, `Rt = [d, e]`, `i = 0`, `j = 0` and exact cost caches
for the two routes, `apply` yields `Rs' = [a, d]` and `Rt' = [c, b, e]`, and
`compute_gain` stores
`cost(a,b) + cost(b,c) + cost(d,e) - cost(a,d) - cost(c,b) - cost(b,e)`. -/
theorem scenario_routes_and_gain (inp : input) (st : solution_state)
    (S T a b c d e : Nat)
    (hS : (inp._vehicles S).start = none ∧ (inp._vehicles S).end_ = none)
    (hT : (inp._vehicles T).start = none ∧ (inp._vehicles T).end_ = none)
    (hc : costs_exact (scenario_move inp st S T a b c d e)) :
    applied_routes (scenario_move inp st S T a b c d e) = some ([a, d], [c, b, e]) ∧
    computed_gain (scenario_move inp st S T a b c d e)
      = some ((edge_cost inp a b : Int) + edge_cost inp b c + edge_cost inp d e
          - edge_cost inp a d - edge_cost inp c b - edge_cost inp b e) := by
  have hi : (scenario_move inp st S T a b c d e).s_rank
      < (scenario_move inp st S T a b c d e).s_route.length := by
    simp [scenario_move, ls_operator]
  have hj : (scenario_move inp st S T a b c d e).t_rank
      < (scenario_move inp st S T a b c d e).t_route.length := by
    simp [scenario_move, ls_operator]
  have hr : gain_ready (scenario_move inp st S T a b c d e) := by
    refine ⟨hi, hj, ?_, ?_, ?_, ?_⟩
    · rw [hc.fwd_s]; rfl
    · rw [hc.bwd_s]; rfl
    · rw [hc.fwd_t]; rfl
    · rw [hc.bwd_t]; rfl
  constructor
  · rw [applied_routes, apply_eq_some _ hi hj]
    rfl
  · rw [computed_gain, compute_gain_eq_six_step _ hr]
    have h1 := hc.fwd_s
    have h2 := hc.bwd_s
    have h3 := hc.fwd_t
    have h4 := hc.bwd_t
    simp only [scenario_move, ls_operator] at h1 h2 h3 h4
    simp only [Option.map_some', Option.some.injEq, six_step_gain, scenario_move, ls_operator,
      h1, h2, h3, h4, hS.2, hT.1, hT.2]
    simp [fwd_costs_of, bwd_costs_of, List.range, List.range.loop, slice, path_cost, job_at,
      cache_at, edge_cost]
    ring

/-- Witness of C3: jobs `1 .. 5` on `open_input`, whose matrix is not
symmetric. -/
theorem scenario_routes_and_gain_witness :
    costs_exact (scenario_move open_input (demo_state open_input [1, 2, 3] [4, 5] 2 0)
      0 1 1 2 3 4 5) ∧
    computed_gain (scenario_move open_input (demo_state open_input [1, 2, 3] [4, 5] 2 0)
      0 1 1 2 3 4 5)
      = some ((edge_cost open_input 1 2 : Int) + edge_cost open_input 2 3
          + edge_cost open_input 4 5 - edge_cost open_input 1 4 - edge_cost open_input 3 2
          - edge_cost open_input 2 5) :=
  ⟨⟨by decide, by decide, by decide, by decide⟩,
    (scenario_routes_and_gain open_input (demo_state open_input [1, 2, 3] [4, 5] 2 0)
      0 1 1 2 3 4 5 ⟨by decide, by decide⟩ ⟨by decide, by decide⟩
      ⟨by decide, by decide, by decide, by decide⟩).2⟩

/-- C4: for every solution state and anchors whose four amount entries
exist (`fs = fwd_amounts[S][i]`, `ft = fwd_amounts[T][j]`,
`bt = bwd_amounts[T][j]`, `bs = bwd_amounts[S][i]`), `is_valid` returns, and
returns true if and only if `bwd_skill_rank[S][T] <= i + 1`,
`j < fwd_skill_rank[T][S]`, `fs + ft <= cap(S)` and `bt + bs <= cap(T)`. -/
theorem is_valid_iff_four_conditions (op : cvrp_reverse_two_opt) (fs ft bt bs : Nat)
    (hfs : (op._sol_state.fwd_amounts op.s_vehicle)[op.s_rank]? = some fs)
    (hft : (op._sol_state.fwd_amounts op.t_vehicle)[op.t_rank]? = some ft)
    (hbt : (op._sol_state.bwd_amounts op.t_vehicle)[op.t_rank]? = some bt)
    (hbs : (op._sol_state.bwd_amounts op.s_vehicle)[op.s_rank]? = some bs) :
    ∃ valid : Bool, op.is_valid = some (valid, op) ∧
      (valid = true ↔
        (op._sol_state.bwd_skill_rank op.s_vehicle op.t_vehicle ≤ op.s_rank + 1 ∧
         op.t_rank < op._sol_state.fwd_skill_rank op.t_vehicle op.s_vehicle ∧
         fs + ft ≤ (op._input._vehicles op.s_vehicle).capacity ∧
         bt + bs ≤ (op._input._vehicles op.t_vehicle).capacity)) := by
  refine ⟨_, is_valid_eq op fs ft bt bs hfs hft hbt hbs, ?_⟩
  simp only [Bool.and_eq_true, decide_eq_true_eq, and_assoc]

/-- Witness of C4: the move at ranks `(0, 0)` of `[1, 2, 3]` and `[4, 5]`,
where the entries read are `1`, `1`, `2` and `3`. -/
theorem is_valid_iff_four_conditions_witness :
    ∃ valid : Bool,
      (demo_move [1, 2, 3] [4, 5] 0 0).is_valid = some (valid, demo_move [1, 2, 3] [4, 5] 0 0) ∧
      (valid = true ↔
        ((demo_move [1, 2, 3] [4, 5] 0 0)._sol_state.bwd_skill_rank 0 1 ≤ 0 + 1 ∧
         0 < (demo_move [1, 2, 3] [4, 5] 0 0)._sol_state.fwd_skill_rank 1 0 ∧
         1 + 1 ≤ (demo_input._vehicles 0).capacity ∧
         2 + 3 ≤ (demo_input._vehicles 1).capacity)) :=
  is_valid_iff_four_conditions (demo_move [1, 2, 3] [4, 5] 0 0) 1 1 2 3
    (by decide) (by decide) (by decide) (by decide)

/-- C5: capacity soundness.  For every move with in-range ranks whose amount
caches are the cumulative sums the specification defines (over `route[0..r]`
and over `route[r..end]`), if `is_valid` returns true then the brute-force
demand of the new source route is at most `cap(S)` and the brute-force demand
of the new target route is at most `cap(T)`. -/
theorem valid_move_fits_capacity (op : cvrp_reverse_two_opt)
    (hi : op.s_rank < op.s_route.length) (hj : op.t_rank < op.t_route.length)
    (ha : amounts_exact op) (hv : validity op = some true) :
    demand op._input (new_source op.s_route op.t_route op.s_rank op.t_rank)
        ≤ (op._input._vehicles op.s_vehicle).capacity ∧
    demand op._input (new_target op.s_route op.t_route op.s_rank op.t_rank)
        ≤ (op._input._vehicles op.t_vehicle).capacity := by
  rw [validity, is_valid_exact op hi hj ha] at hv
  simp only [Option.map_some', Option.some.injEq, Bool.and_eq_true, decide_eq_true_eq] at hv
  obtain ⟨⟨⟨_, _⟩, h3⟩, h4⟩ := hv
  rw [demand_new_source, demand_new_target]
  have s := demand_slice_from op._input op.s_route op.s_rank hi
  have t := demand_slice_from op._input op.t_route op.t_rank hj
  constructor
  · exact h3
  · omega

/-- Witness of C5: the valid move at ranks `(0, 0)` of `[1, 2, 3]` and
`[4, 5]`, unit demands and capacities `10`. -/
theorem valid_move_fits_capacity_witness :
    validity (demo_move [1, 2, 3] [4, 5] 0 0) = some true ∧
    demand demo_input (new_source [1, 2, 3] [4, 5] 0 0) ≤ 10 ∧
    demand demo_input (new_target [1, 2, 3] [4, 5] 0 0) ≤ 10 :=
  ⟨by decide, valid_move_fits_capacity (demo_move [1, 2, 3] [4, 5] 0 0) (by decide)
    (by decide) ⟨by decide, by decide, by decide, by decide⟩ (by decide)⟩

/-- C6, as stated, fails.  On `tight_input` (unit demands, `cap(S) = 10`,
`cap(T) = 1`), for the routes `[1]` and `[2]` and ranks `(0, 0)`, take the
amounts the claim states: `fwd_amount[v][r]` is the demand of `route[0..r]` and
`fwd_amount[v][last] = bwd_amount[v][0] = total demand`, which for these
one-job routes leaves no choice, all four caches are `[1]`.  Both skill
comparisons and the first capacity comparison hold, the second capacity
comparison fails (`1 + 1 > 1`) and `is_valid` returns false, yet the new
target route is empty: its demand `0` does not exceed `cap(T)`. -/
theorem capacity_gate_not_exact :
    (tight_move [1] [2] 0 0)._sol_state.fwd_amounts 0 = fwd_amounts_of tight_input [1] ∧
    (tight_move [1] [2] 0 0)._sol_state.fwd_amounts 1 = fwd_amounts_of tight_input [2] ∧
    ((tight_move [1] [2] 0 0)._sol_state.fwd_amounts 0).getLast? = some (demand tight_input [1]) ∧
    ((tight_move [1] [2] 0 0)._sol_state.bwd_amounts 0)[0]? = some (demand tight_input [1]) ∧
    ((tight_move [1] [2] 0 0)._sol_state.fwd_amounts 1).getLast? = some (demand tight_input [2]) ∧
    ((tight_move [1] [2] 0 0)._sol_state.bwd_amounts 1)[0]? = some (demand tight_input [2]) ∧
    (tight_move [1] [2] 0 0)._sol_state.bwd_amounts 0 = [1] ∧
    (tight_move [1] [2] 0 0)._sol_state.bwd_amounts 1 = [1] ∧
    (tight_move [1] [2] 0 0)._sol_state.bwd_skill_rank 0 1 ≤ 0 + 1 ∧
    0 < (tight_move [1] [2] 0 0)._sol_state.fwd_skill_rank 1 0 ∧
    amount_at ((tight_move [1] [2] 0 0)._sol_state.fwd_amounts 0) 0
        + amount_at ((tight_move [1] [2] 0 0)._sol_state.fwd_amounts 1) 0
      ≤ (tight_input._vehicles 0).capacity ∧
    ¬ (amount_at ((tight_move [1] [2] 0 0)._sol_state.bwd_amounts 1) 0
        + amount_at ((tight_move [1] [2] 0 0)._sol_state.bwd_amounts 0) 0
        ≤ (tight_input._vehicles 1).capacity) ∧
    validity (tight_move [1] [2] 0 0) = some false ∧
    applied_routes (tight_move [1] [2] 0 0) = some ([1, 2], []) ∧
    ¬ ((tight_input._vehicles 1).capacity < demand tight_input (new_target [1] [2] 0 0)) := by
  refine ⟨?_, ?_, ?_, ?_, ?_, ?_, ?_, ?_, ?_, ?_, ?_, ?_, ?_, ?_, ?_⟩ <;> decide

/-- C6, amended: the table, not the gate, is what changes.  For every move
with in-range ranks, when `fwd_amounts[v][r]` is the demand of `route[0..r]`
and `bwd_amounts[v][r]` is the demand of the jobs strictly after rank `r`,
`route[r+1..end]`, the two sums `is_valid` compares are the brute-force
demands of the two new routes, and `is_valid` returns a result such that:
when its first capacity comparison fails the result is false and the demand of
the new source route strictly exceeds `cap(S)`; when its second capacity
comparison fails the result is false and the demand of the new target route
strictly exceeds `cap(T)`; and when the result is false although both skill
comparisons hold, one of the two new routes strictly exceeds the capacity of
its vehicle. -/
theorem capacity_gate (op : cvrp_reverse_two_opt)
    (hi : op.s_rank < op.s_route.length) (hj : op.t_rank < op.t_route.length)
    (ha : amounts_as_read op) :
    ∃ valid : Bool, op.is_valid = some (valid, op) ∧
      (¬ (amount_at (op._sol_state.fwd_amounts op.s_vehicle) op.s_rank
            + amount_at (op._sol_state.fwd_amounts op.t_vehicle) op.t_rank
            ≤ (op._input._vehicles op.s_vehicle).capacity) →
        valid = false ∧
        (op._input._vehicles op.s_vehicle).capacity
          < demand op._input (new_source op.s_route op.t_route op.s_rank op.t_rank)) ∧
      (¬ (amount_at (op._sol_state.bwd_amounts op.t_vehicle) op.t_rank
            + amount_at (op._sol_state.bwd_amounts op.s_vehicle) op.s_rank
            ≤ (op._input._vehicles op.t_vehicle).capacity) →
        valid = false ∧
        (op._input._vehicles op.t_vehicle).capacity
          < demand op._input (new_target op.s_route op.t_route op.s_rank op.t_rank)) ∧
      (valid = false →
        op._sol_state.bwd_skill_rank op.s_vehicle op.t_vehicle ≤ op.s_rank + 1 →
        op.t_rank < op._sol_state.fwd_skill_rank op.t_vehicle op.s_vehicle →
        (op._input._vehicles op.s_vehicle).capacity
            < demand op._input (new_source op.s_route op.t_route op.s_rank op.t_rank) ∨
        (op._input._vehicles op.t_vehicle).capacity
            < demand op._input (new_target op.s_route op.t_route op.s_rank op.t_rank)) := by
  obtain ⟨e1, e2⟩ := compared_amounts_as_read op hi hj ha
  refine ⟨_, is_valid_reads op hi hj (amounts_as_read_ready op ha), ?_, ?_, ?_⟩
  · intro h
    refine ⟨?_, by omega⟩
    simp [h]
  · intro h
    refine ⟨?_, by omega⟩
    simp [h]
  · intro hv h1 h2
    simp only [h1, h2, decide_True, Bool.true_and, Bool.and_eq_false_iff,
      decide_eq_false_iff_not] at hv
    rcases hv with hv | hv
    · left; omega
    · right; omega

/-- Witness of C6, amended: on `tight_input`, the move at ranks `(0, 0)` of
`[1, 2, 3]` and `[4, 5]` would leave `[3, 2, 5]`, of demand `3`, to vehicle `1`
of capacity `1`; the second comparison reads `1 + 2`, fails, and `is_valid`
returns false.  The move of the counterexample, whose new target route is
empty, is accepted with these caches. -/
theorem capacity_gate_witness :
    amounts_as_read (after_rank_move [1, 2, 3] [4, 5] 0 0) ∧
    validity (after_rank_move [1, 2, 3] [4, 5] 0 0) = some false ∧
    validity (after_rank_move [1] [2] 0 0) = some true ∧
    (tight_input._vehicles 1).capacity
      < demand tight_input (new_target [1, 2, 3] [4, 5] 0 0) :=
  have h := capacity_gate (after_rank_move [1, 2, 3] [4, 5] 0 0) (by decide) (by decide)
    ⟨by decide, by decide, by decide, by decide⟩
  ⟨⟨by decide, by decide, by decide, by decide⟩, by decide, by decide,
    h.elim fun _ hv => (hv.2.2.1 (by decide)).2⟩

/-- C7, as stated, fails: with the skill ranks the data model of the
specification defines (entry `[v1][v2]` for the route of `v2` and the skills
of `v1`), on `skilled_input` the move at ranks `(1, 0)` of the routes `[1, 2]`
and `[4, 5]` passes `is_valid`, yet job `4`, which is relocated from the
target prefix `Rt[0..0]` into the route of vehicle `0`, requires skill `1`
that vehicle `0` does not have. -/
theorem skill_ranks_as_specified_unsound :
    skills_as_specified (literal_skill_move [1, 2] [4, 5] 1 0) ∧
    amounts_exact (literal_skill_move [1, 2] [4, 5] 1 0) ∧
    validity (literal_skill_move [1, 2] [4, 5] 1 0) = some true ∧
    4 ∈ slice [4, 5] 0 0 ∧
    vehicle_ok_with_job skilled_input 0 4 = false := by
  refine ⟨⟨?_, ?_⟩, ⟨?_, ?_, ?_, ?_⟩, ?_, ?_, ?_⟩ <;> decide

/-- C7, amended: when `fwd_skill_rank[v1][v2]` is the number of jobs at the
front of the route of `v1` that `v2` can serve and `bwd_skill_rank[v1][v2]` is
the rank from which every job to the back of the route of `v1` can be served
by `v2`, then for every move with `j` in range: if `is_valid` returns true,
every job of the relocated target prefix `Rt[0..j]` is serviceable by `S` and
every job of the relocated source part `Rs[i+1..end]` is serviceable by `T`;
if the first skill comparison fails, some job of `Rs[i+1..end]` is not
serviceable by `T`; if the second fails, some job of `Rt[0..j]` is not
serviceable by `S`. -/
theorem skill_feasibility (op : cvrp_reverse_two_opt)
    (hj : op.t_rank < op.t_route.length) (hs : skills_as_read op) :
    (validity op = some true →
      (∀ x ∈ slice op.t_route 0 op.t_rank,
        vehicle_ok_with_job op._input op.s_vehicle x = true) ∧
      (∀ x ∈ slice_from op.s_route (op.s_rank + 1),
        vehicle_ok_with_job op._input op.t_vehicle x = true)) ∧
    (¬ (op._sol_state.bwd_skill_rank op.s_vehicle op.t_vehicle ≤ op.s_rank + 1) →
      ∃ x ∈ slice_from op.s_route (op.s_rank + 1),
        vehicle_ok_with_job op._input op.t_vehicle x = false) ∧
    (¬ (op.t_rank < op._sol_state.fwd_skill_rank op.t_vehicle op.s_vehicle) →
      ∃ x ∈ slice op.t_route 0 op.t_rank,
        vehicle_ok_with_job op._input op.s_vehicle x = false) := by
  refine ⟨?_, ?_, ?_⟩
  · intro hv
    obtain ⟨h1, h2⟩ := validity_true_skills op hv
    rw [hs.bwd] at h1
    rw [hs.fwd] at h2
    exact ⟨from_front_covers _ _ _ _ h2, from_back_covers _ _ _ _ h1⟩
  · intro h
    rw [hs.bwd] at h
    exact from_back_stops _ _ _ _ h
  · intro h
    rw [hs.fwd] at h
    exact from_front_stops _ _ _ _ hj h

/-- Witness of C7, amended: on `skilled_input` the move at ranks `(0, 0)` of
the routes `[1, 2]` and `[5, 4]` is valid; job `5` goes to vehicle `0` and job
`2` to vehicle `1`. -/
theorem skill_feasibility_witness :
    validity (read_skill_move [1, 2] [5, 4] 0 0) = some true ∧
    (∀ x ∈ slice [5, 4] 0 0, vehicle_ok_with_job skilled_input 0 x = true) ∧
    (∀ x ∈ slice_from [1, 2] (0 + 1), vehicle_ok_with_job skilled_input 1 x = true) :=
  ⟨by decide, (skill_feasibility (read_skill_move [1, 2] [5, 4] 0 0) (by decide)
    ⟨by decide, by decide⟩).1 (by decide)⟩

/-- C8: constructing a `cvrp_reverse_two_opt` succeeds if and only if
`s_vehicle != t_vehicle`, both routes are non-empty, `s_rank < |s_route|` and
`t_rank < |t_route|`; it then produces the move anchored at its arguments, and
otherwise an assertion fails and no move is produced. -/
theorem ctor_succeeds_iff (inp : input) (st : solution_state) (Rs : List Nat) (S i : Nat)
    (Rt : List Nat) (T j : Nat) :
    ((∃ op, cvrp_reverse_two_opt.ctor inp st Rs S i Rt T j = .ok op) ↔
      (S ≠ T ∧ Rs.length ≥ 1 ∧ Rt.length ≥ 1 ∧ i < Rs.length ∧ j < Rt.length)) ∧
    ((S ≠ T ∧ Rs.length ≥ 1 ∧ Rt.length ≥ 1 ∧ i < Rs.length ∧ j < Rt.length) →
      cvrp_reverse_two_opt.ctor inp st Rs S i Rt T j
        = .ok (ls_operator inp st Rs S i Rt T j)) ∧
    (¬ (S ≠ T ∧ Rs.length ≥ 1 ∧ Rt.length ≥ 1 ∧ i < Rs.length ∧ j < Rt.length) →
      ∃ text, cvrp_reverse_two_opt.ctor inp st Rs S i Rt T j = .error text) := by
  refine ⟨⟨?_, ?_⟩, ctor_ok inp st Rs S i Rt T j, ctor_error inp st Rs S i Rt T j⟩
  · rintro ⟨op, hop⟩
    by_contra hn
    obtain ⟨text, ht⟩ := ctor_error inp st Rs S i Rt T j hn
    rw [ht] at hop
    cases hop
  · intro h
    exact ⟨_, ctor_ok inp st Rs S i Rt T j h⟩

/-- C9: under the preconditions of the constructor (`i < |Rs|`, `j < |Rt|`)
and with each of the four cached arrays having one entry per rank of the route
of its vehicle, `compute_gain`, `is_valid` and `apply` return: no read of a
route or of a cache and no iterator range is out of range.  Rank `i + 1`
(resp. `j + 1`) is not a rank of the route when `i` (resp. `j`) is the last
rank, and the three calls return all the same. -/
theorem never_fails (op : cvrp_reverse_two_opt) (hr : gain_ready op)
    (ha : amounts_ready op) :
    (∃ o, op.compute_gain = some o) ∧ (∃ r, op.is_valid = some r) ∧
    (∃ o, op.apply = some o) ∧
    (op.s_rank = op.s_route.length - 1 → op.s_route[op.s_rank + 1]? = none) ∧
    (op.t_rank = op.t_route.length - 1 → op.t_route[op.t_rank + 1]? = none) := by
  obtain ⟨r1, r2, r3, r4⟩ := amounts_ready_reads op hr.s_rank_lt hr.t_rank_lt ha
  refine ⟨⟨_, compute_gain_eq_six_step op hr⟩, ⟨_, is_valid_eq op _ _ _ _ r1 r2 r3 r4⟩,
    ⟨_, apply_eq_some op hr.s_rank_lt hr.t_rank_lt⟩, ?_, ?_⟩
  · intro h
    rw [List.getElem?_eq_none_iff]
    omega
  · intro h
    rw [List.getElem?_eq_none_iff]
    omega

/-- Witness of C9: the move at the last ranks `(2, 1)` of `[1, 2, 3]` and
`[4, 5]`. -/
theorem never_fails_witness :
    gain_ready (demo_move [1, 2, 3] [4, 5] 2 1) ∧
    amounts_ready (demo_move [1, 2, 3] [4, 5] 2 1) ∧
    (∃ o, (demo_move [1, 2, 3] [4, 5] 2 1).compute_gain = some o) ∧
    (∃ r, (demo_move [1, 2, 3] [4, 5] 2 1).is_valid = some r) ∧
    (∃ o, (demo_move [1, 2, 3] [4, 5] 2 1).apply = some o) :=
  have hr : gain_ready (demo_move [1, 2, 3] [4, 5] 2 1) :=
    ⟨by decide, by decide, by decide, by decide, by decide, by decide⟩
  have ha : amounts_ready (demo_move [1, 2, 3] [4, 5] 2 1) :=
    ⟨by decide, by decide, by decide, by decide⟩
  ⟨hr, ha, (never_fails _ hr ha).1, (never_fails _ hr ha).2.1, (never_fails _ hr ha).2.2.1⟩

/-- C10: for a move with in-range ranks and caches with one entry per rank,
`compute_gain` returns the object it was called on with only `stored_gain` and
the gain-computed flag written (routes, input and solution state unchanged);
`is_valid` returns the object it was called on, unchanged (stored gain and flag
included); and `is_valid` returns the same result before `compute_gain`, after
it, and at each of any number of calls in a row. -/
theorem gain_and_validity_frame (op : cvrp_reverse_two_opt) (hr : gain_ready op)
    (ha : amounts_ready op) :
    ∃ (gain : Int) (valid : Bool),
      op.compute_gain = some { op with stored_gain := gain, gain_computed := true } ∧
      op.is_valid = some (valid, op) ∧
      ({ op with stored_gain := gain, gain_computed := true } : cvrp_reverse_two_opt).is_valid
        = some (valid, { op with stored_gain := gain, gain_computed := true }) ∧
      (∀ n, repeat_is_valid n op = some (List.replicate n valid, op)) ∧
      (∀ n, repeat_is_valid n { op with stored_gain := gain, gain_computed := true }
        = some (List.replicate n valid,
            { op with stored_gain := gain, gain_computed := true })) := by
  obtain ⟨r1, r2, r3, r4⟩ := amounts_ready_reads op hr.s_rank_lt hr.t_rank_lt ha
  have h1 := is_valid_eq op _ _ _ _ r1 r2 r3 r4
  have h2 := is_valid_eq { op with stored_gain := six_step_gain op, gain_computed := true }
    _ _ _ _ r1 r2 r3 r4
  exact ⟨six_step_gain op, _, compute_gain_eq_six_step op hr, h1, h2,
    repeat_is_valid_eq op _ h1, repeat_is_valid_eq _ _ h2⟩

/-- Witness of C10: the move at ranks `(0, 0)` of `[1, 2, 3]` and `[4, 5]`. -/
theorem gain_and_validity_frame_witness :
    ∃ (gain : Int) (valid : Bool),
      (demo_move [1, 2, 3] [4, 5] 0 0).compute_gain
        = some { demo_move [1, 2, 3] [4, 5] 0 0 with
            stored_gain := gain, gain_computed := true } ∧
      (demo_move [1, 2, 3] [4, 5] 0 0).is_valid = some (valid, demo_move [1, 2, 3] [4, 5] 0 0) :=
  have h := gain_and_validity_frame (demo_move [1, 2, 3] [4, 5] 0 0)
    ⟨by decide, by decide, by decide, by decide, by decide, by decide⟩
    ⟨by decide, by decide, by decide, by decide⟩
  h.elim fun gain hg => hg.elim fun valid hv => ⟨gain, valid, hv.1, hv.2.1⟩

/-- C11: for every move, `addition_candidates` and `update_candidates` return
the same result, the two anchored vehicles `s_vehicle` and `t_vehicle` and
nothing else; the result does not depend on the ranks, the routes, the stored
gain or the flag, and it is the same on the object `apply` leaves. -/
theorem candidates_are_the_anchors (op : cvrp_reverse_two_opt) :
    op.addition_candidates = op.update_candidates ∧
    op.addition_candidates = [op.s_vehicle, op.t_vehicle] ∧
    (∀ v, v ∈ op.addition_candidates ↔ (v = op.s_vehicle ∨ v = op.t_vehicle)) ∧
    (∀ (Rs Rt : List Nat) (i j : Nat) (gain : Int) (flag : Bool),
      ({ op with s_route := Rs, t_route := Rt, s_rank := i, t_rank := j,
                 stored_gain := gain, gain_computed := flag } :
        cvrp_reverse_two_opt).addition_candidates = op.addition_candidates) ∧
    (∀ op1, op.apply = some op1 →
      op1.addition_candidates = op.addition_candidates ∧
      op1.update_candidates = op.update_candidates) := by
  refine ⟨rfl, rfl, ?_, ?_, ?_⟩
  · intro v
    simp [cvrp_reverse_two_opt.addition_candidates]
  · intro Rs Rt i j gain flag
    rfl
  · intro op1 h
    obtain ⟨h1, h2, _, _⟩ := apply_keeps_anchors op op1 h
    simp [cvrp_reverse_two_opt.addition_candidates, cvrp_reverse_two_opt.update_candidates,
      h1, h2]

/-- C12: for every move with in-range ranks and cost caches with one entry per
rank, `compute_gain` returns, sets the flag and stores the sum of the six
additive steps of the gain formula of the specification, each under its guard
(`six_step_gain`). -/
theorem compute_gain_is_six_steps (op : cvrp_reverse_two_opt) (hr : gain_ready op) :
    op.compute_gain
        = some { op with stored_gain := six_step_gain op, gain_computed := true } ∧
    computed_gain op = some (six_step_gain op) := by
  have h := compute_gain_eq_six_step op hr
  exact ⟨h, by rw [computed_gain, h]; rfl⟩

/-- Witness of C12: the move at ranks `(1, 0)` of `[1, 2, 3]` and `[4, 5]` on
`demo_input`, where steps 1 to 4 contribute and the stored gain is `9`. -/
theorem compute_gain_is_six_steps_witness :
    gain_ready (demo_move [1, 2, 3] [4, 5] 1 0) ∧
    computed_gain (demo_move [1, 2, 3] [4, 5] 1 0)
      = some (six_step_gain (demo_move [1, 2, 3] [4, 5] 1 0)) ∧
    six_step_gain (demo_move [1, 2, 3] [4, 5] 1 0) = 9 :=
  have hr : gain_ready (demo_move [1, 2, 3] [4, 5] 1 0) :=
    ⟨by decide, by decide, by decide, by decide, by decide, by decide⟩
  ⟨hr, (compute_gain_is_six_steps (demo_move [1, 2, 3] [4, 5] 1 0) hr).2, by decide⟩

/-- C13: restricted gain correctness.  For every input and every move with
in-range ranks and exact cost caches, if the new target route is non-empty
(`i` is not the last rank of `Rs` or `j` is not the last rank of `Rt`), or `T`
has a start depot, or `T` has no end depot, then `compute_gain` stores the
brute-force `total_cost(Rs) + total_cost(Rt) - total_cost(Rs') -
total_cost(Rt')`. -/
theorem restricted_gain_correct (op : cvrp_reverse_two_opt)
    (hi : op.s_rank < op.s_route.length) (hj : op.t_rank < op.t_route.length)
    (hc : costs_exact op)
    (h : (op.s_rank ≠ op.s_route.length - 1 ∨ op.t_rank ≠ op.t_route.length - 1) ∨
      (op._input._vehicles op.t_vehicle).has_start = true ∨
      (op._input._vehicles op.t_vehicle).has_end = false) :
    computed_gain op
      = some (brute_force_gain op._input op.s_vehicle op.t_vehicle op.s_route op.t_route
          op.s_rank op.t_rank) := by
  rw [computed_gain_eq op hi hj hc, missed_end_edge_eq_zero op h]
  simp

/-- Witness of C13: the move at ranks `(1, 0)` of `[1, 2, 3]` and `[4, 5]` on
`demo_input`, where the target vehicle has an end depot and no start depot and
the new target route `[3, 5]` is non-empty; both gains are `9`. -/
theorem restricted_gain_correct_witness :
    costs_exact (demo_move [1, 2, 3] [4, 5] 1 0) ∧
    computed_gain (demo_move [1, 2, 3] [4, 5] 1 0)
      = some (brute_force_gain demo_input 0 1 [1, 2, 3] [4, 5] 1 0) ∧
    brute_force_gain demo_input 0 1 [1, 2, 3] [4, 5] 1 0 = 9 :=
  ⟨⟨by decide, by decide, by decide, by decide⟩,
    restricted_gain_correct (demo_move [1, 2, 3] [4, 5] 1 0) (by decide) (by decide)
      ⟨by decide, by decide, by decide, by decide⟩ (Or.inl (Or.inl (by decide))),
    by decide⟩

/-- C14: `apply` conserves jobs.  For every in-range `i`, `j`, `apply` returns
and the concatenation of the two routes it leaves is a permutation of
`Rs ++ Rt`; so the two sizes add up to `|Rs| + |Rt|`, and if no job occurs
twice in `Rs ++ Rt` then no job occurs twice in the two new routes. -/
theorem apply_conserves_jobs (op : cvrp_reverse_two_opt)
    (hi : op.s_rank < op.s_route.length) (hj : op.t_rank < op.t_route.length) :
    ∃ op1, op.apply = some op1 ∧
      (op1.s_route ++ op1.t_route).Perm (op.s_route ++ op.t_route) ∧
      op1.s_route.length + op1.t_route.length = op.s_route.length + op.t_route.length ∧
      ((op.s_route ++ op.t_route).Nodup → (op1.s_route ++ op1.t_route).Nodup) := by
  have hp := new_routes_perm op.s_route op.t_route op.s_rank op.t_rank
  refine ⟨_, apply_eq_some op hi hj, hp, ?_, ?_⟩
  · have hl := hp.length_eq
    simpa only [List.length_append] using hl
  · intro hn
    exact hp.nodup_iff.mpr hn

/-- Witness of C14: the move at ranks `(0, 0)` of `[1, 2, 3]` and `[4, 5]`
leaves `[1, 4]` and `[3, 2, 5]`. -/
theorem apply_conserves_jobs_witness :
    ([1, 2, 3] ++ [4, 5] : List Nat).Nodup ∧
    ∃ op1, (demo_move [1, 2, 3] [4, 5] 0 0).apply = some op1 ∧
      (op1.s_route ++ op1.t_route).Perm ([1, 2, 3] ++ [4, 5]) ∧
      (op1.s_route ++ op1.t_route).Nodup :=
  have h := apply_conserves_jobs (demo_move [1, 2, 3] [4, 5] 0 0) (by decide) (by decide)
  ⟨by decide, h.elim fun op1 h1 => ⟨op1, h1.1, h1.2.1, h1.2.2.2 (by decide)⟩⟩

/-- C15: route sizes after `apply`.  For every in-range `i`, `j`, `apply`
returns, the new source route has `i + j + 2` jobs (it is never empty), the
new target route has `|Rs| + |Rt| - i - j - 2` jobs, and the new target route
is empty if and only if `i` is the last rank of `Rs` and `j` is the last rank
of `Rt`. -/
theorem apply_route_sizes (op : cvrp_reverse_two_opt)
    (hi : op.s_rank < op.s_route.length) (hj : op.t_rank < op.t_route.length) :
    ∃ op1, op.apply = some op1 ∧
      op1.s_route.length = op.s_rank + op.t_rank + 2 ∧
      op1.s_route ≠ [] ∧
      op1.t_route.length
        = op.s_route.length + op.t_route.length - op.s_rank - op.t_rank - 2 ∧
      (op1.t_route = [] ↔
        (op.s_rank = op.s_route.length - 1 ∧ op.t_rank = op.t_route.length - 1)) := by
  have h1 := new_source_length op.s_route op.t_route op.s_rank op.t_rank hi hj
  have h2 := new_target_length op.s_route op.t_route op.s_rank op.t_rank
  refine ⟨_, apply_eq_some op hi hj, h1, ?_, ?_, ?_⟩
  · intro h
    simp only at h
    rw [h] at h1
    simp at h1
  · simp only [h2]
    omega
  · simp only [← List.length_eq_zero, h2]
    omega

/-- Witness of C15: the move at the last ranks `(2, 1)` of `[1, 2, 3]` and
`[4, 5]` leaves five jobs in the source route and none in the target route. -/
theorem apply_route_sizes_witness :
    ∃ op1, (demo_move [1, 2, 3] [4, 5] 2 1).apply = some op1 ∧
      op1.s_route.length = 2 + 1 + 2 ∧ op1.t_route = [] :=
  have h := apply_route_sizes (demo_move [1, 2, 3] [4, 5] 2 1) (by decide) (by decide)
  h.elim fun op1 h1 => ⟨op1, h1.1, h1.2.1, h1.2.2.2.2.mpr ⟨by decide, by decide⟩⟩

/-- C16: the move is its own inverse when a part of the source route is
relocated.  For distinct vehicles, every routes and in-range `i`, `j` with `i`
not the last rank of `Rs`: the move at `(i, j)` is constructed and applied;
on the two routes it leaves, a second move of the same vehicles at source rank
`i` and target rank `|Rs| - i - 2` passes the assertions of the constructor
(with any solution state), and applying it leaves exactly `Rs` and `Rt`. -/
theorem move_is_its_own_inverse (inp : input) (st st1 : solution_state)
    (Rs Rt : List Nat) (S T i j : Nat) (hST : S ≠ T)
    (hi : i < Rs.length) (hj : j < Rt.length) (hs : i ≠ Rs.length - 1) :
    ∃ op op1 op2 op3,
      cvrp_reverse_two_opt.ctor inp st Rs S i Rt T j = .ok op ∧
      op.apply = some op1 ∧
      cvrp_reverse_two_opt.ctor inp st1 op1.s_route S i op1.t_route T (Rs.length - i - 2)
        = .ok op2 ∧
      op2.apply = some op3 ∧
      op3.s_route = Rs ∧ op3.t_route = Rt := by
  have hi1 : i + 1 < Rs.length := by omega
  have l1 := new_source_length Rs Rt i j hi hj
  have l2 := new_target_length Rs Rt i j
  have c1 := ctor_ok inp st Rs S i Rt T j ⟨hST, by omega, by omega, hi, hj⟩
  have a1 := apply_eq_some (ls_operator inp st Rs S i Rt T j) hi hj
  have c2 := ctor_ok inp st1 (new_source Rs Rt i j) S i (new_target Rs Rt i j) T
    (Rs.length - i - 2) ⟨hST, by omega, by omega, by omega, by omega⟩
  have a2 := apply_eq_some (ls_operator inp st1 (new_source Rs Rt i j) S i
    (new_target Rs Rt i j) T (Rs.length - i - 2))
    (by simp only [ls_operator]; omega) (by simp only [ls_operator]; omega)
  exact ⟨_, _, _, _, c1, a1, c2, a2, new_source_undone Rs Rt i j hi1,
    new_target_undone Rs Rt i j hi1⟩

/-- Witness of C16: on `demo_input`, the move at ranks `(0, 0)` of `[1, 2, 3]`
and `[4, 5]` leaves `[1, 4]` and `[3, 2, 5]`; the move at ranks `(0, 1)` of
these gives `[1, 2, 3]` and `[4, 5]` back. -/
theorem move_is_its_own_inverse_witness :
    ∃ op op1 op2 op3,
      cvrp_reverse_two_opt.ctor demo_input (demo_state demo_input [1, 2, 3] [4, 5] 2 0)
        [1, 2, 3] 0 0 [4, 5] 1 0 = .ok op ∧
      op.apply = some op1 ∧
      cvrp_reverse_two_opt.ctor demo_input (demo_state demo_input [1, 4] [3, 2, 5] 3 0)
        op1.s_route 0 0 op1.t_route 1 ([1, 2, 3].length - 0 - 2) = .ok op2 ∧
      op2.apply = some op3 ∧
      op3.s_route = [1, 2, 3] ∧ op3.t_route = [4, 5] :=
  move_is_its_own_inverse demo_input (demo_state demo_input [1, 2, 3] [4, 5] 2 0)
    (demo_state demo_input [1, 4] [3, 2, 5] 3 0) [1, 2, 3] [4, 5] 0 1 0 0
    (by decide) (by decide) (by decide) (by decide)

/-- C17: `compute_gain` overwrites.  For every move with in-range ranks and
cost caches with one entry per rank, whatever the stored gain and the flag
before the call, `compute_gain` returns the same object as it does on `op`;
on that object the flag is true; and calling `compute_gain` again on it leaves
it as it is, so two calls store the same gain as one. -/
theorem compute_gain_overwrites (op : cvrp_reverse_two_opt) (hr : gain_ready op)
    (gain : Int) (flag : Bool) :
    ({ op with stored_gain := gain, gain_computed := flag } : cvrp_reverse_two_opt).compute_gain
      = op.compute_gain ∧
    ∃ op1, op.compute_gain = some op1 ∧ op1.gain_computed = true ∧
      op1.compute_gain = some op1 ∧
      computed_gain op1 = computed_gain op := by
  have h0 := compute_gain_eq_six_step op hr
  have h1 := compute_gain_ignores_gain op hr gain flag
  have h2 := compute_gain_ignores_gain op hr (six_step_gain op) true
  refine ⟨by rw [h1, h0], _, h0, rfl, h2, ?_⟩
  rw [computed_gain, computed_gain, h2, h0]

/-- Witness of C17: the move at ranks `(1, 0)` of `[1, 2, 3]` and `[4, 5]` on
`demo_input`, called with a stored gain of `1000` and the flag set. -/
theorem compute_gain_overwrites_witness :
    computed_gain ({ demo_move [1, 2, 3] [4, 5] 1 0 with
        stored_gain := 1000, gain_computed := true } : cvrp_reverse_two_opt) = some 9 ∧
    ({ demo_move [1, 2, 3] [4, 5] 1 0 with
        stored_gain := 1000, gain_computed := true } : cvrp_reverse_two_opt).compute_gain
      = (demo_move [1, 2, 3] [4, 5] 1 0).compute_gain :=
  ⟨by decide, (compute_gain_overwrites (demo_move [1, 2, 3] [4, 5] 1 0)
    ⟨by decide, by decide, by decide, by decide, by decide, by decide⟩ 1000 true).1⟩

/-- C18: a default-constructed `cl_args_t` has `exploration_level` equal to
`cl_args_t::max_exploration_level`, both `5`, so the default level does not
exceed the maximum; `osrm_address` is `"0.0.0.0"`, `osrm_port` is `"5000"`,
`osrm_profile` is `"car"`, `nb_threads` is `4`, `geometry` and `use_libosrm`
are false. -/
theorem cl_args_defaults :
    cl_args_t.ctor.exploration_level = cl_args_t.max_exploration_level ∧
    cl_args_t.ctor.exploration_level = 5 ∧
    cl_args_t.max_exploration_level = 5 ∧
    cl_args_t.ctor.exploration_level ≤ cl_args_t.max_exploration_level ∧
    cl_args_t.ctor.osrm_address = "0.0.0.0" ∧
    cl_args_t.ctor.osrm_port = "5000" ∧
    cl_args_t.ctor.osrm_profile = "car" ∧
    cl_args_t.ctor.nb_threads = 4 ∧
    cl_args_t.ctor.geometry = false ∧
    cl_args_t.ctor.use_libosrm = false :=
  ⟨rfl, rfl, rfl, Nat.le_refl _, rfl, rfl, rfl, rfl, rfl, rfl⟩

end Vroom
